import Mathlib

/-!
Verification of the Wa-Tor predator-prey simulation (`src/wa-tor.py`).

The simulation core is shallowly embedded: agents (Fish = prey, Shark =
predator) live on a toroidal grid whose cells hold ordered occupant
sequences; a scheduler roster drives one activation per agent per tick.
The grid and scheduler primitives come from the `mesa` library
(`MultiGrid`, `RandomActivation`), which is not part of the repository;
those primitives are modelled from the spec (sections 4.1 and 4.3).
Randomness is modelled by the deterministic output stream of the single
seeded pseudo-random source: `rng : Nat -> Nat` together with a cursor
`ridx` counting how many values have been consumed; `randrange(n)` is
`rng ridx % n` and `random.choice(xs)` picks index `rng ridx % xs.length`.
-/

namespace WaTor

/-- The two agent variants: `Fish` (prey) and `Shark` (predator). -/
inductive AgentKind
  | fish
  | shark
deriving DecidableEq, Repr

/-- One agent: unique id, variant, energy, fertility counter, position.
Mirrors the mutable attributes of the Python `Fish`/`Shark` agents. -/
structure Agent where
  uid : Nat
  kind : AgentKind
  energy : Int
  fert : Nat
  pos : Nat × Nat
deriving DecidableEq, Repr

/-- The whole simulation state: grid occupancy, scheduler roster,
id counter, configuration parameters and the random stream cursor.
`cells` is indexed by `x * height + y`; each cell is the ordered
occupant sequence (id and variant) as in mesa's `MultiGrid`. -/
structure WState where
  width : Nat
  height : Nat
  cells : List (List (Nat × AgentKind))
  agents : List Agent
  currentId : Nat
  fishInitialEnergy : Int
  sharkInitialEnergy : Int
  fishFertilityThreshold : Nat
  sharkFertilityThreshold : Nat
  sharkEnergyFromFish : Int
  rng : Nat → Nat
  ridx : Nat

/-! ## World primitives (mesa `MultiGrid`, modelled from the spec §4.1) -/

/-- Flat index of a grid coordinate. -/
def cellIdx (st : WState) (p : Nat × Nat) : Nat := p.1 * st.height + p.2

/-- Occupant sequence of a cell (mesa `get_cell_list_contents`). -/
def cellAt (st : WState) (p : Nat × Nat) : List (Nat × AgentKind) :=
  st.cells.getD (cellIdx st p) []

/-- Replace a cell's occupant sequence. -/
def setCellAt (st : WState) (p : Nat × Nat) (v : List (Nat × AgentKind)) : WState :=
  { st with cells := st.cells.set (cellIdx st p) v }

/-- mesa `is_cell_empty`: true iff the occupant sequence is empty. -/
def isCellEmpty (st : WState) (p : Nat × Nat) : Bool :=
  (cellAt st p).isEmpty

/-- mesa `place_agent`: append to the cell's occupant sequence; never
checks emptiness (this is what enables the reproduction quirk). -/
def placeOnGrid (st : WState) (uid : Nat) (k : AgentKind) (p : Nat × Nat) : WState :=
  setCellAt st p (cellAt st p ++ [(uid, k)])

/-- mesa `remove_agent`: drop the agent from the grid.  Removal is by id
over all cells; since every placed id occupies exactly one cell this is
the same as removing it from the cell given by its `pos`. -/
def removeFromGrid (st : WState) (uid : Nat) : WState :=
  { st with cells := st.cells.map (fun c => c.filter (fun o => o.1 != uid)) }

/-- Toroidal decrement: `(x - 1) mod n`. -/
def wrapDec (n x : Nat) : Nat := (x + n - 1) % n

/-- Toroidal increment: `(x + 1) mod n`. -/
def wrapInc (n x : Nat) : Nat := (x + 1) % n

/-- mesa `get_neighborhood(pos, moore=False, include_center=False)`:
the 4 orthogonally adjacent cells, toroidally wrapped. -/
def neighborhood4 (w h : Nat) (p : Nat × Nat) : List (Nat × Nat) :=
  [(wrapDec w p.1, p.2), (wrapInc w p.1, p.2), (p.1, wrapDec h p.2), (p.1, wrapInc h p.2)]

/-- mesa `get_neighborhood(pos, moore=True, include_center=False)`:
the 8 adjacent cells including diagonals, toroidally wrapped. -/
def neighborhood8 (w h : Nat) (p : Nat × Nat) : List (Nat × Nat) :=
  [(wrapDec w p.1, wrapDec h p.2), (p.1, wrapDec h p.2), (wrapInc w p.1, wrapDec h p.2),
   (wrapDec w p.1, p.2), (wrapInc w p.1, p.2),
   (wrapDec w p.1, wrapInc h p.2), (p.1, wrapInc h p.2), (wrapInc w p.1, wrapInc h p.2)]

/-! ## Scheduler and agent-store primitives (mesa, modelled from the spec §4.3) -/

/-- The ids currently on the scheduler roster. -/
def rosterIds (st : WState) : List Nat := st.agents.map (·.uid)

/-- Fetch an agent's current record by id. -/
def lookupAgent (st : WState) (uid : Nat) : Option Agent :=
  st.agents.find? (fun a => a.uid == uid)

/-- Apply an attribute update to the agent with the given id. -/
def updateAgent (st : WState) (uid : Nat) (f : Agent → Agent) : WState :=
  { st with agents := st.agents.map (fun a => if a.uid = uid then f a else a) }

/-- mesa `schedule.add`: append the new agent to the roster. -/
def scheduleAdd (st : WState) (a : Agent) : WState :=
  { st with agents := st.agents ++ [a] }

/-- mesa `schedule.remove`: drop the agent with this id from the roster. -/
def scheduleRemove (st : WState) (uid : Nat) : WState :=
  { st with agents := st.agents.filter (fun a => a.uid != uid) }

/-- mesa `move_agent`: remove from the current cell, append to the
destination cell, and update the agent's `pos`. -/
def moveAgent (st : WState) (uid : Nat) (k : AgentKind) (p : Nat × Nat) : WState :=
  updateAgent (placeOnGrid (removeFromGrid st uid) uid k p) uid (fun a => { a with pos := p })

/-- The variant's fertility threshold (`fish_fertility_threshold` /
`shark_fertility_threshold`). -/
def fertT (st : WState) : AgentKind → Nat
  | AgentKind.fish => st.fishFertilityThreshold
  | AgentKind.shark => st.sharkFertilityThreshold

/-- The variant's configured initial energy (`fish_initial_energy` /
`shark_initial_energy`). -/
def initE (st : WState) : AgentKind → Int
  | AgentKind.fish => st.fishInitialEnergy
  | AgentKind.shark => st.sharkInitialEnergy

/-! ## Agent rules (translated from `src/wa-tor.py`) -/

/-- `Fish.move`: gather the 4 orthogonal neighbors, keep the empty ones,
and if any remain move to one chosen by the random source; otherwise
stay.  `random.choice` draws one value from the stream. -/
def fishMove (st : WState) (uid : Nat) : WState :=
  match lookupAgent st uid with
  | none => st
  | some a =>
      let es := (neighborhood4 st.width st.height a.pos).filter (fun p => isCellEmpty st p)
      if es.isEmpty then st
      else
        let k := st.rng st.ridx % es.length
        moveAgent { st with ridx := st.ridx + 1 } uid a.kind (es.getD k a.pos)

/-- `Fish.reproduce` / `Shark.reproduce` (the two methods differ only in
the variant's threshold and initial energy, taken here from the agent's
kind): increment the fertility counter; on reaching the threshold create
one offspring of the same variant with a fresh id (`next_id` increments
`current_id` and returns it), the variant's initial energy and counter 0,
place it at the parent's current position (no emptiness check), add it to
the roster, and reset the parent's counter to 0. -/
def reproduce (st : WState) (uid : Nat) : WState :=
  match lookupAgent st uid with
  | none => st
  | some a =>
      let st1 := updateAgent st uid (fun b => { b with fert := b.fert + 1 })
      if fertT st a.kind ≤ a.fert + 1 then
        let newId := st1.currentId + 1
        let st2 := { st1 with currentId := newId }
        let off : Agent :=
          { uid := newId, kind := a.kind, energy := initE st a.kind, fert := 0, pos := a.pos }
        let st3 := scheduleAdd (placeOnGrid st2 newId a.kind a.pos) off
        updateAgent st3 uid (fun b => { b with fert := 0 })
      else st1

/-- `Fish.step`: move, decrement energy, reproduce, then die (removal
from grid and roster) if energy has dropped to 0 or below. -/
def fishStep (st : WState) (uid : Nat) : WState :=
  let st1 := fishMove st uid
  let st2 := updateAgent st1 uid (fun a => { a with energy := a.energy - 1 })
  let st3 := reproduce st2 uid
  match lookupAgent st3 uid with
  | some a => if a.energy ≤ 0 then scheduleRemove (removeFromGrid st3 uid) uid else st3
  | none => st3

/-- The neighbor cells whose first occupant is a Fish (the filter in
`Shark.move_and_eat`). -/
def fishCells (st : WState) (p : Nat × Nat) : List (Nat × Nat) :=
  (neighborhood8 st.width st.height p).filter (fun q =>
    match (cellAt st q).head? with
    | some (_, AgentKind.fish) => true
    | _ => false)

/-- `Shark.move_and_eat`: among the 8 neighbors find cells whose first
occupant is a Fish; if any, pick one via the random source, remove that
Fish from grid and roster, move there and gain `shark_energy_from_fish`;
otherwise move to a random empty neighbor if one exists. -/
def sharkMoveAndEat (st : WState) (uid : Nat) : WState :=
  match lookupAgent st uid with
  | none => st
  | some a =>
      let fs := fishCells st a.pos
      if fs.isEmpty then
        let es := (neighborhood8 st.width st.height a.pos).filter (fun p => isCellEmpty st p)
        if es.isEmpty then st
        else
          let k := st.rng st.ridx % es.length
          moveAgent { st with ridx := st.ridx + 1 } uid a.kind (es.getD k a.pos)
      else
        let k := st.rng st.ridx % fs.length
        let q := fs.getD k a.pos
        let st1 := { st with ridx := st.ridx + 1 }
        match (cellAt st1 q).head? with
        | some (fid, _) =>
            let st2 := scheduleRemove (removeFromGrid st1 fid) fid
            let st3 := moveAgent st2 uid a.kind q
            updateAgent st3 uid (fun b => { b with energy := b.energy + st.sharkEnergyFromFish })
        | none => st1

/-- `Shark.step`: move-and-eat, reproduce, decrement energy, then die if
energy has dropped to 0 or below. -/
def sharkStep (st : WState) (uid : Nat) : WState :=
  let st1 := sharkMoveAndEat st uid
  let st2 := reproduce st1 uid
  let st3 := updateAgent st2 uid (fun a => { a with energy := a.energy - 1 })
  match lookupAgent st3 uid with
  | some a => if a.energy ≤ 0 then scheduleRemove (removeFromGrid st3 uid) uid else st3
  | none => st3

/-- One activation: dispatch on the agent's variant (`Fish.step` or
`Shark.step`); an id no longer on the roster does nothing. -/
def activateAgent (st : WState) (uid : Nat) : WState :=
  match lookupAgent st uid with
  | none => st
  | some a =>
      match a.kind with
      | AgentKind.fish => fishStep st uid
      | AgentKind.shark => sharkStep st uid

/-! ## Scheduler tick (mesa `RandomActivation`, modelled from the spec §4.3) -/

/-- Modelled from the spec: `random.shuffle` of the tick-start snapshot,
realized by repeatedly drawing an index from the stream and extracting
that element.  Produces a permutation of the input. -/
def shuffleList (s : Nat → Nat) : Nat → List Nat → List Nat
  | _, [] => []
  | i, x :: xs =>
      let l := x :: xs
      let k := s i % l.length
      l.getD k x :: shuffleList s (i + 1) (l.eraseIdx k)
termination_by _ l => l.length
decreasing_by
  have hk : s i % (xs.length + 1) < xs.length + 1 := Nat.mod_lt _ (Nat.succ_pos _)
  simp only [List.length_eraseIdx, List.length_cons, if_pos hk]
  omega

/-- Modelled from the spec: activate each id of the shuffled snapshot in
order, skipping ids removed from the roster earlier in the same tick.
Also returns the list of ids actually activated, in order. -/
def tickGo : List Nat → WState → WState × List Nat
  | [], st => (st, [])
  | uid :: rest, st =>
      if st.agents.any (fun a => a.uid == uid) then
        let st' := activateAgent st uid
        let r := tickGo rest st'
        (r.1, uid :: r.2)
      else tickGo rest st

/-- Modelled from the spec: one scheduler tick — snapshot the roster ids,
shuffle them (consuming one stream value per element), then activate each
in order with the removal-skip discipline.  Agents added mid-tick are on
the roster but not in the snapshot, so they first activate next tick. -/
def tick (st : WState) : WState × List Nat :=
  let snap := rosterIds st
  let order := shuffleList st.rng st.ridx snap
  tickGo order { st with ridx := st.ridx + snap.length }

/-! ## Snapshot and driver (`WaTorModel.get_grid`, `WaTorModel.step`) -/

/-- Classification of a cell from its first occupant only:
EMPTY = 0, FISH = 1, SHARK = 2. -/
def classifyHead : Option (Nat × AgentKind) → Nat
  | none => 0
  | some (_, AgentKind.fish) => 1
  | some (_, AgentKind.shark) => 2

/-- `WaTorModel.get_grid`: the per-tick snapshot, a `width`-indexed list
of `height`-indexed rows of three-valued classifications. -/
def getGrid (st : WState) : List (List Nat) :=
  (List.range st.width).map (fun x =>
    (List.range st.height).map (fun y => classifyHead (cellAt st (x, y)).head?))

/-- The driver loop: each `WaTorModel.step` first records the snapshot,
then runs the scheduler tick; `runSnapshots st n` is the list of the `n`
recorded snapshots. -/
def runSnapshots : WState → Nat → List (List (List Nat))
  | _, 0 => []
  | st, n + 1 => getGrid st :: runSnapshots (tick st).1 n

/-- Iterate the scheduler tick `n` times. -/
def tickIter : Nat → WState → WState
  | 0, st => st
  | n + 1, st => tickIter n (tick st).1

/-! ## Seeding (`WaTorModel.__init__`, `find_empty_cell`) -/

/-- The recognized configuration options (spec §6), with the random seed
represented by the output stream of the pseudo-random source it
determines. -/
structure Config where
  width : Nat
  height : Nat
  nFish : Nat
  nSharks : Nat
  fishInitialEnergy : Int
  sharkInitialEnergy : Int
  fishFertilityThreshold : Nat
  sharkFertilityThreshold : Nat
  sharkEnergyFromFish : Int
  seedStream : Nat → Nat

/-- The empty world before seeding: all cells empty, no agents,
`current_id = 0`. -/
def initialState (c : Config) : WState :=
  { width := c.width, height := c.height,
    cells := List.replicate (c.width * c.height) [],
    agents := [], currentId := 0,
    fishInitialEnergy := c.fishInitialEnergy,
    sharkInitialEnergy := c.sharkInitialEnergy,
    fishFertilityThreshold := c.fishFertilityThreshold,
    sharkFertilityThreshold := c.sharkFertilityThreshold,
    sharkEnergyFromFish := c.sharkEnergyFromFish,
    rng := c.seedStream, ridx := 0 }

/-- `WaTorModel.find_empty_cell`: sample `x = randrange(width)`,
`y = randrange(height)` and resample until the cell is empty.  The
unbounded Python loop is embedded with explicit fuel counting loop
iterations; `none` means the loop has not terminated within `fuel`
iterations. -/
def findEmptyCell (st : WState) : Nat → Option ((Nat × Nat) × WState)
  | 0 => none
  | fuel + 1 =>
      let x := st.rng st.ridx % st.width
      let y := st.rng (st.ridx + 1) % st.height
      let st1 := { st with ridx := st.ridx + 2 }
      if isCellEmpty st1 (x, y) then some ((x, y), st1)
      else findEmptyCell st1 fuel

/-- Seed one agent: find an empty cell, create the agent with a fresh id
and the variant's initial energy and place it there, then add it to the
roster (`place_agent` before `schedule.add`, as in the source). -/
def seedAgent (st : WState) (k : AgentKind) (fuel : Nat) : Option WState :=
  match findEmptyCell st fuel with
  | none => none
  | some (p, st1) =>
      let newId := st1.currentId + 1
      let st2 := { st1 with currentId := newId }
      let ag : Agent := { uid := newId, kind := k, energy := initE st2 k, fert := 0, pos := p }
      some (scheduleAdd (placeOnGrid st2 newId k p) ag)

/-- Seed `n` agents of one variant. -/
def seedKind (k : AgentKind) : Nat → Nat → WState → Option WState
  | 0, _, st => some st
  | n + 1, fuel, st =>
      match seedAgent st k fuel with
      | none => none
      | some st1 => seedKind k n fuel st1

/-- `WaTorModel.__init__` after parameter storage: seed `nFish` Fish then
`nSharks` Sharks. -/
def seedModel (c : Config) (fuel : Nat) : Option WState :=
  match seedKind AgentKind.fish c.nFish fuel (initialState c) with
  | none => none
  | some st => seedKind AgentKind.shark c.nSharks fuel st

/-- A random stream is covering when, from any point on, every cell of
the `w × h` grid is eventually produced by a sample pair (the two draws
of one `find_empty_cell` iteration).  This is the determinized form of
the fairness a real pseudo-random source provides with probability 1. -/
def Covers (w h : Nat) (s : Nat → Nat) : Prop :=
  ∀ i x y, x < w → y < h → ∃ j, i ≤ j ∧ s (2 * j) % w = x ∧ s (2 * j + 1) % h = y

/-- The energy bonus an activation confers before the per-activation
decrement: `shark_energy_from_fish` exactly when the agent is a Shark
whose move-and-eat step finds a neighbor cell headed by a Fish
(and therefore eats), otherwise 0. -/
def activationBonus (st : WState) (a : Agent) : Int :=
  if a.kind = AgentKind.shark ∧ fishCells st a.pos ≠ [] then st.sharkEnergyFromFish else 0

/-! ## Invariant-style predicates -/

/-- Configuration-and-frame relation: all configuration fields and the
random stream are preserved, and the id counter does not decrease.
Every simulation operation satisfies it. -/
structure Frame (st st' : WState) : Prop where
  width_eq : st'.width = st.width
  height_eq : st'.height = st.height
  fie_eq : st'.fishInitialEnergy = st.fishInitialEnergy
  sie_eq : st'.sharkInitialEnergy = st.sharkInitialEnergy
  fft_eq : st'.fishFertilityThreshold = st.fishFertilityThreshold
  sft_eq : st'.sharkFertilityThreshold = st.sharkFertilityThreshold
  sef_eq : st'.sharkEnergyFromFish = st.sharkEnergyFromFish
  rng_eq : st'.rng = st.rng
  cid_le : st.currentId ≤ st'.currentId

/-- Grid-roster kind consistency: every occupant entry of a cell has the
variant of the roster agent carrying that id.  Holds at every reachable
state (ids are placed on the grid with their owner's variant). -/
def GridKindsOK (st : WState) : Prop :=
  ∀ c ∈ st.cells, ∀ o ∈ c, ∀ b ∈ st.agents, b.uid = o.1 → b.kind = o.2

/-- A destroyed agent: its id is on neither the roster nor the grid, and
it can never be re-issued because ids are handed out above `currentId`. -/
def Dead (st : WState) (uid : Nat) : Prop :=
  uid ∉ rosterIds st ∧ (∀ c ∈ st.cells, ∀ o ∈ c, o.1 ≠ uid) ∧ uid ≤ st.currentId

/-- Roster sanity: ids are pairwise distinct and bounded by the id
counter (both hold at every reachable state). -/
def RosterOK (st : WState) : Prop :=
  (rosterIds st).Nodup ∧ ∀ b ∈ st.agents, b.uid ≤ st.currentId

/-- Fertility invariant: every live agent's counter is strictly below
its variant's threshold. -/
def FertOK (st : WState) : Prop :=
  ∀ b ∈ st.agents, b.fert < fertT st b.kind

/-- The reachable-state invariant used for the fertility claim: both
thresholds are at least 1 (spec §6: configuration options are positive),
the roster is sane and every live counter is below its threshold. -/
def SimInv (st : WState) : Prop :=
  1 ≤ st.fishFertilityThreshold ∧ 1 ≤ st.sharkFertilityThreshold ∧
    RosterOK st ∧ FertOK st

/-- Seeding invariant: the grid has exactly `width * height` cells,
every seeded agent sits alone in an in-range cell, the number of
non-empty cells equals the number of agents, ids are bounded and
pairwise distinct, and an even number of random values has been drawn
(each `find_empty_cell` iteration draws two). -/
def SeedInv (st : WState) : Prop :=
  st.cells.length = st.width * st.height ∧
  (∀ a ∈ st.agents, a.pos.1 < st.width ∧ a.pos.2 < st.height ∧
      cellAt st a.pos = [(a.uid, a.kind)]) ∧
  st.cells.countP (fun c => !c.isEmpty) = st.agents.length ∧
  (∀ a ∈ st.agents, a.uid ≤ st.currentId) ∧
  (rosterIds st).Nodup ∧
  2 ∣ st.ridx

/-! ## Example configuration and states used by the witnesses -/

/-- A concrete 2×2 configuration with one Fish and one Shark. -/
def exCfg : Config :=
  { width := 2, height := 2, nFish := 1, nSharks := 1,
    fishInitialEnergy := 20, sharkInitialEnergy := 4,
    fishFertilityThreshold := 2, sharkFertilityThreshold := 3,
    sharkEnergyFromFish := 8, seedStream := fun n => n / 2 }

/-- A concrete seeded state on the 2×2 grid: Fish 1 at (0,0),
Shark 2 at (1,1). -/
def exSt : WState :=
  { width := 2, height := 2,
    cells := [[(1, AgentKind.fish)], [], [], [(2, AgentKind.shark)]],
    agents := [{ uid := 1, kind := AgentKind.fish, energy := 20, fert := 0, pos := (0, 0) },
               { uid := 2, kind := AgentKind.shark, energy := 4, fert := 0, pos := (1, 1) }],
    currentId := 2,
    fishInitialEnergy := 20, sharkInitialEnergy := 4,
    fishFertilityThreshold := 2, sharkFertilityThreshold := 3,
    sharkEnergyFromFish := 8, rng := fun n => n / 2, ridx := 4 }

/-- Like `exSt` but the Fish's fertility counter is 1, one short of its
threshold 2, so its next activation reproduces. -/
def exSt2 : WState :=
  { width := 2, height := 2,
    cells := [[(1, AgentKind.fish)], [], [], [(2, AgentKind.shark)]],
    agents := [{ uid := 1, kind := AgentKind.fish, energy := 20, fert := 1, pos := (0, 0) },
               { uid := 2, kind := AgentKind.shark, energy := 4, fert := 0, pos := (1, 1) }],
    currentId := 2,
    fishInitialEnergy := 20, sharkInitialEnergy := 4,
    fishFertilityThreshold := 2, sharkFertilityThreshold := 3,
    sharkEnergyFromFish := 8, rng := fun n => n / 2, ridx := 4 }

/-- A 2×2 state with a transiently double-occupied cell: Fish 1 and its
newborn Fish 3 both at (0,0), Shark 2 at (1,1). -/
def exSt3 : WState :=
  { width := 2, height := 2,
    cells := [[(1, AgentKind.fish), (3, AgentKind.fish)], [], [], [(2, AgentKind.shark)]],
    agents := [{ uid := 1, kind := AgentKind.fish, energy := 20, fert := 0, pos := (0, 0) },
               { uid := 2, kind := AgentKind.shark, energy := 4, fert := 0, pos := (1, 1) },
               { uid := 3, kind := AgentKind.fish, energy := 20, fert := 0, pos := (0, 0) }],
    currentId := 3,
    fishInitialEnergy := 20, sharkInitialEnergy := 4,
    fishFertilityThreshold := 2, sharkFertilityThreshold := 3,
    sharkEnergyFromFish := 8, rng := fun n => n / 2, ridx := 4 }

/-- A 2×2 state in which agent id 1 has been destroyed: only Shark 2 at
(1,1) and Fish 3 at (0,0) remain, and `currentId` has already passed 1. -/
def exSt4 : WState :=
  { width := 2, height := 2,
    cells := [[(3, AgentKind.fish)], [], [], [(2, AgentKind.shark)]],
    agents := [{ uid := 2, kind := AgentKind.shark, energy := 4, fert := 0, pos := (1, 1) },
               { uid := 3, kind := AgentKind.fish, energy := 20, fert := 0, pos := (0, 0) }],
    currentId := 3,
    fishInitialEnergy := 20, sharkInitialEnergy := 4,
    fishFertilityThreshold := 2, sharkFertilityThreshold := 3,
    sharkEnergyFromFish := 8, rng := fun n => n / 2, ridx := 4 }

/-- A 2x2 configuration whose population 3 + 2 exceeds the 4-cell
capacity, so its seeding loop can never terminate. -/
def cBig : Config :=
  { width := 2, height := 2, nFish := 3, nSharks := 2,
    fishInitialEnergy := 20, sharkInitialEnergy := 4,
    fishFertilityThreshold := 2, sharkFertilityThreshold := 3,
    sharkEnergyFromFish := 8, seedStream := fun n => n / 2 }

/-! ## Basic lemmas about the primitives -/

theorem lookupAgent_mem {st : WState} {uid : Nat} {a : Agent}
    (h : lookupAgent st uid = some a) : a ∈ st.agents ∧ a.uid = uid := by
  refine ⟨List.mem_of_find?_eq_some h, ?_⟩
  have h2 := List.find?_some h
  simpa using h2

theorem find?_uid_map {v : Nat} {g : Agent → Agent} (hg : ∀ b, (g b).uid = b.uid)
    (l : List Agent) :
    (l.map g).find? (fun a => a.uid == v) = (l.find? (fun a => a.uid == v)).map g := by
  rw [List.find?_map]
  have hp : ((fun a : Agent => a.uid == v) ∘ g) = fun a : Agent => a.uid == v := by
    funext b
    simp [Function.comp, hg]
  rw [hp]

theorem lookupAgent_updateAgent {st : WState} {u v : Nat} {f : Agent → Agent}
    (hf : ∀ b, (f b).uid = b.uid) :
    lookupAgent (updateAgent st u f) v =
      (lookupAgent st v).map (fun b => if b.uid = u then f b else b) := by
  unfold lookupAgent updateAgent
  exact find?_uid_map (fun b => by by_cases h : b.uid = u <;> simp [h, hf]) _

theorem rosterIds_updateAgent {st : WState} {u : Nat} {f : Agent → Agent}
    (hf : ∀ b, (f b).uid = b.uid) :
    rosterIds (updateAgent st u f) = rosterIds st := by
  unfold rosterIds updateAgent
  simp only [List.map_map]
  congr 1
  funext b
  by_cases h : b.uid = u <;> simp [Function.comp, h, hf]

theorem lookupAgent_scheduleAdd_of_some {st : WState} {v : Nat} {a : Agent} (b : Agent)
    (h : lookupAgent st v = some a) :
    lookupAgent (scheduleAdd st b) v = some a := by
  unfold lookupAgent scheduleAdd at *
  rw [List.find?_append, h]
  rfl

theorem lookupAgent_scheduleRemove_ne {st : WState} {u v : Nat} (h : v ≠ u) :
    lookupAgent (scheduleRemove st u) v = lookupAgent st v := by
  unfold lookupAgent scheduleRemove
  rw [List.find?_filter]
  congr 1
  funext b
  by_cases hb : b.uid = v
  · subst hb
    simp [h]
  · simp [hb]

theorem lookupAgent_scheduleRemove_self {st : WState} {u : Nat} :
    lookupAgent (scheduleRemove st u) u = none := by
  unfold lookupAgent scheduleRemove
  rw [List.find?_eq_none]
  intro x hx
  simp only [List.mem_filter, bne_iff_ne] at hx
  simp [hx.2]

theorem lookupAgent_placeOnGrid {st : WState} {u v : Nat} {k : AgentKind} {p : Nat × Nat} :
    lookupAgent (placeOnGrid st u k p) v = lookupAgent st v := rfl

theorem lookupAgent_removeFromGrid {st : WState} {u v : Nat} :
    lookupAgent (removeFromGrid st u) v = lookupAgent st v := rfl

theorem lookupAgent_moveAgent {st : WState} {u v : Nat} {k : AgentKind} {p : Nat × Nat} :
    lookupAgent (moveAgent st u k p) v =
      (lookupAgent st v).map (fun b => if b.uid = u then { b with pos := p } else b) := by
  unfold moveAgent
  exact lookupAgent_updateAgent (fun b => rfl)

theorem frame_refl (st : WState) : Frame st st :=
  ⟨rfl, rfl, rfl, rfl, rfl, rfl, rfl, rfl, Nat.le_refl _⟩

theorem frame_trans {s t u : WState} (h1 : Frame s t) (h2 : Frame t u) : Frame s u :=
  ⟨h2.width_eq.trans h1.width_eq, h2.height_eq.trans h1.height_eq,
   h2.fie_eq.trans h1.fie_eq, h2.sie_eq.trans h1.sie_eq,
   h2.fft_eq.trans h1.fft_eq, h2.sft_eq.trans h1.sft_eq,
   h2.sef_eq.trans h1.sef_eq, h2.rng_eq.trans h1.rng_eq,
   h1.cid_le.trans h2.cid_le⟩

theorem fertT_frame {st st' : WState} (h : Frame st st') (k : AgentKind) :
    fertT st' k = fertT st k := by
  cases k
  · exact h.fft_eq
  · exact h.sft_eq

theorem frame_updateAgent (st : WState) (u : Nat) (f : Agent → Agent) :
    Frame st (updateAgent st u f) :=
  ⟨rfl, rfl, rfl, rfl, rfl, rfl, rfl, rfl, Nat.le_refl _⟩

theorem frame_setCellAt (st : WState) (p : Nat × Nat) (v : List (Nat × AgentKind)) :
    Frame st (setCellAt st p v) :=
  ⟨rfl, rfl, rfl, rfl, rfl, rfl, rfl, rfl, Nat.le_refl _⟩

theorem frame_placeOnGrid (st : WState) (u : Nat) (k : AgentKind) (p : Nat × Nat) :
    Frame st (placeOnGrid st u k p) :=
  ⟨rfl, rfl, rfl, rfl, rfl, rfl, rfl, rfl, Nat.le_refl _⟩

theorem frame_removeFromGrid (st : WState) (u : Nat) :
    Frame st (removeFromGrid st u) :=
  ⟨rfl, rfl, rfl, rfl, rfl, rfl, rfl, rfl, Nat.le_refl _⟩

theorem frame_scheduleAdd (st : WState) (a : Agent) :
    Frame st (scheduleAdd st a) :=
  ⟨rfl, rfl, rfl, rfl, rfl, rfl, rfl, rfl, Nat.le_refl _⟩

theorem frame_scheduleRemove (st : WState) (u : Nat) :
    Frame st (scheduleRemove st u) :=
  ⟨rfl, rfl, rfl, rfl, rfl, rfl, rfl, rfl, Nat.le_refl _⟩

theorem frame_moveAgent (st : WState) (u : Nat) (k : AgentKind) (p : Nat × Nat) :
    Frame st (moveAgent st u k p) :=
  ⟨rfl, rfl, rfl, rfl, rfl, rfl, rfl, rfl, Nat.le_refl _⟩

theorem frame_ridx (st : WState) (n : Nat) :
    Frame st { st with ridx := n } :=
  ⟨rfl, rfl, rfl, rfl, rfl, rfl, rfl, rfl, Nat.le_refl _⟩

theorem frame_fishMove (st : WState) (u : Nat) : Frame st (fishMove st u) := by
  unfold fishMove
  split
  · exact frame_refl _
  · dsimp only
    split
    · exact frame_refl _
    · exact frame_trans (frame_ridx st _) (frame_moveAgent _ _ _ _)

theorem frame_reproduce (st : WState) (u : Nat) : Frame st (reproduce st u) := by
  unfold reproduce
  split
  · exact frame_refl _
  · dsimp only
    split
    · refine frame_trans ?_ (frame_updateAgent _ _ _)
      refine frame_trans ?_ (frame_scheduleAdd _ _)
      refine frame_trans ?_ (frame_placeOnGrid _ _ _ _)
      exact frame_trans (frame_updateAgent st _ _)
        ⟨rfl, rfl, rfl, rfl, rfl, rfl, rfl, rfl, Nat.le_succ _⟩
    · exact frame_updateAgent st _ _

theorem frame_fishStep (st : WState) (u : Nat) : Frame st (fishStep st u) := by
  unfold fishStep
  dsimp only
  have h1 : Frame st (reproduce (updateAgent (fishMove st u) u
      (fun a => { a with energy := a.energy - 1 })) u) :=
    frame_trans (frame_trans (frame_fishMove st u)
      (frame_updateAgent (fishMove st u) u _)) (frame_reproduce _ u)
  split
  · split
    · exact frame_trans h1 (frame_trans (frame_removeFromGrid _ _) (frame_scheduleRemove _ _))
    · exact h1
  · exact h1

theorem frame_sharkMoveAndEat (st : WState) (u : Nat) :
    Frame st (sharkMoveAndEat st u) := by
  unfold sharkMoveAndEat
  split
  · exact frame_refl _
  · dsimp only
    split
    · split
      · exact frame_refl _
      · exact frame_trans (frame_ridx st _) (frame_moveAgent _ _ _ _)
    · split
      · exact frame_trans (frame_ridx st _)
          (frame_trans (frame_removeFromGrid _ _)
            (frame_trans (frame_scheduleRemove _ _)
              (frame_trans (frame_moveAgent _ _ _ _) (frame_updateAgent _ _ _))))
      · exact frame_ridx st _

theorem frame_sharkStep (st : WState) (u : Nat) : Frame st (sharkStep st u) := by
  unfold sharkStep
  dsimp only
  have h1 : Frame st (updateAgent (reproduce (sharkMoveAndEat st u) u) u
      (fun a => { a with energy := a.energy - 1 })) :=
    frame_trans (frame_trans (frame_sharkMoveAndEat st u)
      (frame_reproduce (sharkMoveAndEat st u) u)) (frame_updateAgent _ u _)
  split
  · split
    · exact frame_trans h1 (frame_trans (frame_removeFromGrid _ _) (frame_scheduleRemove _ _))
    · exact h1
  · exact h1

theorem frame_activateAgent (st : WState) (u : Nat) : Frame st (activateAgent st u) := by
  unfold activateAgent
  split
  · exact frame_refl _
  · split
    · exact frame_fishStep st u
    · exact frame_sharkStep st u

theorem frame_tickGo (order : List Nat) (st : WState) :
    Frame st (tickGo order st).1 := by
  induction order generalizing st with
  | nil => exact frame_refl _
  | cons uid rest ih =>
      unfold tickGo
      split
      · exact frame_trans (frame_activateAgent st uid) (ih _)
      · exact ih _

theorem frame_tick (st : WState) : Frame st (tick st).1 := by
  unfold tick
  exact frame_trans (frame_ridx st _) (frame_tickGo _ _)

theorem frame_tickIter (n : Nat) (st : WState) : Frame st (tickIter n st) := by
  induction n generalizing st with
  | zero => exact frame_refl _
  | succ n ih => exact frame_trans (frame_tick st) (ih _)

/-! ## Cell-level lemmas -/

theorem cellAt_setCellAt_self {st : WState} {p : Nat × Nat} {v : List (Nat × AgentKind)}
    (h : cellIdx st p < st.cells.length) :
    cellAt (setCellAt st p v) p = v := by
  unfold cellAt setCellAt
  rw [List.getD_eq_getElem?_getD]
  have : cellIdx { st with cells := st.cells.set (cellIdx st p) v } p = cellIdx st p := rfl
  rw [this, List.getElem?_set_self h]
  rfl

theorem cellAt_placeOnGrid_self {st : WState} {u : Nat} {k : AgentKind} {p : Nat × Nat}
    (h : cellIdx st p < st.cells.length) :
    cellAt (placeOnGrid st u k p) p = cellAt st p ++ [(u, k)] :=
  cellAt_setCellAt_self h

theorem cellAt_updateAgent {st : WState} {u : Nat} {f : Agent → Agent} {p : Nat × Nat} :
    cellAt (updateAgent st u f) p = cellAt st p := rfl

theorem lookupAgent_updateAgent_energy {st : WState} {u v : Nat} {g : Agent → Int} :
    lookupAgent (updateAgent st u (fun b => { b with energy := g b })) v =
      (lookupAgent st v).map
        (fun b => if b.uid = u then { b with energy := g b } else b) :=
  lookupAgent_updateAgent (fun _ => rfl)

theorem lookupAgent_updateAgent_fert {st : WState} {u v : Nat} {g : Agent → Nat} :
    lookupAgent (updateAgent st u (fun b => { b with fert := g b })) v =
      (lookupAgent st v).map
        (fun b => if b.uid = u then { b with fert := g b } else b) :=
  lookupAgent_updateAgent (fun _ => rfl)

theorem rosterIds_updateAgent_pos {st : WState} {u : Nat} {g : Agent → Nat × Nat} :
    rosterIds (updateAgent st u (fun b => { b with pos := g b })) = rosterIds st :=
  rosterIds_updateAgent (fun _ => rfl)

theorem rosterIds_updateAgent_energy {st : WState} {u : Nat} {g : Agent → Int} :
    rosterIds (updateAgent st u (fun b => { b with energy := g b })) = rosterIds st :=
  rosterIds_updateAgent (fun _ => rfl)

theorem rosterIds_updateAgent_fert {st : WState} {u : Nat} {g : Agent → Nat} :
    rosterIds (updateAgent st u (fun b => { b with fert := g b })) = rosterIds st :=
  rosterIds_updateAgent (fun _ => rfl)

theorem cellAt_scheduleAdd {st : WState} {b : Agent} {p : Nat × Nat} :
    cellAt (scheduleAdd st b) p = cellAt st p := rfl

theorem cellAt_scheduleRemove {st : WState} {u : Nat} {p : Nat × Nat} :
    cellAt (scheduleRemove st u) p = cellAt st p := rfl

theorem cellAt_removeFromGrid {st : WState} {u : Nat} {p : Nat × Nat} :
    cellAt (removeFromGrid st u) p = (cellAt st p).filter (fun o => o.1 != u) := by
  unfold cellAt removeFromGrid cellIdx
  dsimp only
  rw [List.getD_eq_getElem?_getD, List.getD_eq_getElem?_getD, List.getElem?_map]
  cases st.cells[p.1 * st.height + p.2]? with
  | none => rfl
  | some c => rfl

theorem cells_length_removeFromGrid (st : WState) (u : Nat) :
    (removeFromGrid st u).cells.length = st.cells.length := by
  unfold removeFromGrid
  simp

theorem cells_length_setCellAt (st : WState) (p : Nat × Nat) (v : List (Nat × AgentKind)) :
    (setCellAt st p v).cells.length = st.cells.length := by
  unfold setCellAt
  simp

theorem cellAt_moveAgent_self {st : WState} {u : Nat} {k : AgentKind} {p : Nat × Nat}
    (h : cellIdx st p < st.cells.length) :
    cellAt (moveAgent st u k p) p =
      (cellAt st p).filter (fun o => o.1 != u) ++ [(u, k)] := by
  unfold moveAgent
  rw [cellAt_updateAgent]
  have h2 : cellIdx (removeFromGrid st u) p < (removeFromGrid st u).cells.length := by
    rw [cells_length_removeFromGrid]
    exact h
  rw [cellAt_placeOnGrid_self h2, cellAt_removeFromGrid]

theorem cellAt_mem_cells {st : WState} {p : Nat × Nat} (h : cellAt st p ≠ []) :
    cellAt st p ∈ st.cells := by
  unfold cellAt at *
  rw [List.getD_eq_getElem?_getD] at *
  cases hc : st.cells[cellIdx st p]? with
  | none =>
      rw [hc] at h
      simp at h
  | some c =>
      have := List.getElem?_mem hc
      simpa using this

/-! ## Claim C5: determinism -/

/-- C5: for a fixed random seed and fixed configuration (all recognized
options including the seed, here bundled in `Config` with the seed
represented by its pseudo-random output stream), two independent runs
produce identical sequences of per-tick snapshots. -/
theorem claim_C5_determinism (c1 c2 : Config) (fuel n : Nat) (h : c1 = c2) :
    (seedModel c1 fuel).map (fun st => runSnapshots st n) =
      (seedModel c2 fuel).map (fun st => runSnapshots st n) := by
  rw [h]

theorem claim_C5_witness :
    (seedModel exCfg 5).map (fun st => runSnapshots st 3) =
      (seedModel exCfg 5).map (fun st => runSnapshots st 3) :=
  claim_C5_determinism exCfg exCfg 5 3 rfl

theorem getD_map_range {α : Type} {f : Nat → α} {n x : Nat} (h : x < n) {d : α} :
    ((List.range n).map f).getD x d = f x := by
  rw [List.getD_eq_getElem?_getD, List.getElem?_map, List.getElem?_range h]
  rfl

/-! ## Claim C7: snapshot classifies by first occupant only -/

/-- C7: the per-tick snapshot classifies each in-range cell by its first
occupant only — 0 when the occupant sequence is empty, 1 when the first
occupant is a Fish, 2 when it is a Shark; the tail of the sequence (any
second occupant) does not influence the value. -/
theorem claim_C7_classification (st : WState) (x y : Nat)
    (hx : x < st.width) (hy : y < st.height) :
    ((getGrid st).getD x []).getD y 3 =
      match cellAt st (x, y) with
      | [] => 0
      | (_, AgentKind.fish) :: _ => 1
      | (_, AgentKind.shark) :: _ => 2 := by
  unfold getGrid
  rw [getD_map_range hx, getD_map_range hy]
  cases h : cellAt st (x, y) with
  | nil => rfl
  | cons o rest => cases o with
    | mk n k => cases k <;> rfl

theorem claim_C7_witness :
    ((getGrid exSt).getD 1 []).getD 1 3 =
      match cellAt exSt (1, 1) with
      | [] => 0
      | (_, AgentKind.fish) :: _ => 1
      | (_, AgentKind.shark) :: _ => 2 :=
  claim_C7_classification exSt 1 1 (by decide) (by decide)

/-! ## Claim C6: prey movement -/

/-- C6: on a Prey's activation, the movement step gathers the 4
orthogonal toroidally-wrapped neighbor cells (always in-range
coordinates), filters them to the empty ones; when the filtered list is
non-empty the Prey moves to the member selected by the uniform choice
(index `rng % length`), and when it is empty the Prey stays put (the
whole state is unchanged). -/
theorem claim_C6_prey_movement (st : WState) (uid : Nat) (a : Agent)
    (hl : lookupAgent st uid = some a)
    (hw : 0 < st.width) (hh : 0 < st.height)
    (hx : a.pos.1 < st.width) (hy : a.pos.2 < st.height) :
    (∀ q ∈ neighborhood4 st.width st.height a.pos, q.1 < st.width ∧ q.2 < st.height) ∧
    ((neighborhood4 st.width st.height a.pos).filter (fun p => isCellEmpty st p) = [] →
      fishMove st uid = st) ∧
    (∀ q1 : List (Nat × Nat),
      q1 = (neighborhood4 st.width st.height a.pos).filter (fun p => isCellEmpty st p) →
      q1 ≠ [] →
      (lookupAgent (fishMove st uid) uid).map Agent.pos =
          some (q1.getD (st.rng st.ridx % q1.length) a.pos) ∧
        q1.getD (st.rng st.ridx % q1.length) a.pos ∈ q1) := by
  refine ⟨?_, ?_, ?_⟩
  · intro q hq
    simp only [neighborhood4, List.mem_cons, List.not_mem_nil, or_false] at hq
    rcases hq with rfl | rfl | rfl | rfl
    · exact ⟨Nat.mod_lt _ hw, hy⟩
    · exact ⟨Nat.mod_lt _ hw, hy⟩
    · exact ⟨hx, Nat.mod_lt _ hh⟩
    · exact ⟨hx, Nat.mod_lt _ hh⟩
  · intro he
    unfold fishMove
    rw [hl]
    dsimp only
    rw [if_pos]
    rw [List.isEmpty_eq_true]
    exact he
  · intro q1 hq1 hne
    subst hq1
    have hke : st.rng st.ridx %
        ((neighborhood4 st.width st.height a.pos).filter
          (fun p => isCellEmpty st p)).length <
        ((neighborhood4 st.width st.height a.pos).filter
          (fun p => isCellEmpty st p)).length :=
      Nat.mod_lt _ (List.length_pos.mpr hne)
    constructor
    · unfold fishMove
      rw [hl]
      dsimp only
      rw [if_neg (by rw [List.isEmpty_eq_true]; exact hne)]
      rw [lookupAgent_moveAgent]
      have hst1 : lookupAgent { st with ridx := st.ridx + 1 } uid = some a := hl
      rw [hst1]
      have hau : a.uid = uid := (lookupAgent_mem hl).2
      simp [hau]
    · rw [List.getD_eq_getElem _ _ hke]
      exact List.getElem_mem hke

theorem claim_C6_witness :
    (lookupAgent (fishMove exSt 1) 1).map Agent.pos =
        some ((((neighborhood4 exSt.width exSt.height (0, 0)).filter
            (fun p => isCellEmpty exSt p))).getD
          (exSt.rng exSt.ridx %
            ((neighborhood4 exSt.width exSt.height (0, 0)).filter
              (fun p => isCellEmpty exSt p)).length) (0, 0)) :=
  ((claim_C6_prey_movement exSt 1
      { uid := 1, kind := AgentKind.fish, energy := 20, fert := 0, pos := (0, 0) }
      (by decide) (by decide) (by decide) (by decide) (by decide)).2.2
    _ rfl (by decide)).1

/-! ## Claim C2: reproduction -/

/-- C2: when the incremented fertility counter reaches the variant's
threshold, exactly one offspring of the same variant is appended to the
roster, carrying the fresh id `current_id + 1` (not present on the
roster before), the variant's configured initial energy, counter 0 and
the parent's current position; the offspring's id/variant entry is
appended to the parent's cell regardless of prior occupancy, and the
parent's counter is reset to 0. -/
theorem claim_C2_reproduction (st : WState) (uid : Nat) (a : Agent)
    (hl : lookupAgent st uid = some a)
    (ht : fertT st a.kind ≤ a.fert + 1)
    (hb : ∀ b ∈ st.agents, b.uid ≤ st.currentId)
    (hp : cellIdx st a.pos < st.cells.length) :
    (reproduce st uid).agents =
        st.agents.map (fun b => if b.uid = uid then { b with fert := 0 } else b) ++
          [{ uid := st.currentId + 1, kind := a.kind, energy := initE st a.kind,
             fert := 0, pos := a.pos }] ∧
      cellAt (reproduce st uid) a.pos = cellAt st a.pos ++ [(st.currentId + 1, a.kind)] ∧
      st.currentId + 1 ∉ rosterIds st ∧
      (reproduce st uid).currentId = st.currentId + 1 := by
  unfold reproduce
  rw [hl]
  dsimp only
  rw [if_pos ht]
  refine ⟨?_, ?_, ?_, rfl⟩
  · show ((st.agents.map _ ++ _).map _) = _
    rw [List.map_append, List.map_map]
    congr 1
    · congr 1
      funext b
      by_cases hbu : b.uid = uid
      · simp [Function.comp, hbu]
      · simp [Function.comp, hbu]
    · simp only [List.map_cons, List.map_nil]
      congr 1
      split
      · rfl
      · rfl
  · rw [cellAt_updateAgent, cellAt_scheduleAdd]
    exact cellAt_placeOnGrid_self hp
  · intro hmem
    simp only [rosterIds, List.mem_map] at hmem
    obtain ⟨b, hbm, hbe⟩ := hmem
    have := hb b hbm
    omega

theorem claim_C2_witness :
    (reproduce exSt2 1).agents =
        exSt2.agents.map (fun b => if b.uid = 1 then { b with fert := 0 } else b) ++
          [{ uid := 3, kind := AgentKind.fish, energy := 20, fert := 0, pos := (0, 0) }] ∧
      cellAt (reproduce exSt2 1) (0, 0) = cellAt exSt2 (0, 0) ++ [(3, AgentKind.fish)] ∧
      3 ∉ rosterIds exSt2 ∧
      (reproduce exSt2 1).currentId = 3 :=
  claim_C2_reproduction exSt2 1
    { uid := 1, kind := AgentKind.fish, energy := 20, fert := 1, pos := (0, 0) }
    (by decide) (by decide) (by decide) (by decide)

/-! ## Claim C10: predation removes exactly the first occupant -/

theorem mem_fishCells {st : WState} {p q : Nat × Nat} (h : q ∈ fishCells st p) :
    ∃ n, (cellAt st q).head? = some (n, AgentKind.fish) := by
  unfold fishCells at h
  rw [List.mem_filter] at h
  rcases h with ⟨-, h2⟩
  cases hc : (cellAt st q).head? with
  | none =>
      rw [hc] at h2
      simp at h2
  | some o =>
      cases o with
      | mk n k =>
          cases k
          · exact ⟨n, rfl⟩
          · rw [hc] at h2
            simp at h2

theorem cellAt_ridx {st : WState} {n : Nat} {p : Nat × Nat} :
    cellAt { st with ridx := n } p = cellAt st p := rfl

theorem filter_ne_of_forall {rest : List (Nat × AgentKind)} {u : Nat}
    (h : ∀ o ∈ rest, o.1 ≠ u) : rest.filter (fun o => o.1 != u) = rest := by
  rw [List.filter_eq_self]
  intro o ho
  simpa using h o ho

/-- C10: when a predator eats, it removes exactly the first occupant of
the chosen neighbor cell from grid and roster and moves into that cell;
any remaining occupants of the cell stay (the predator's entry is
appended after them), so after predation the predator can share the
cell. -/
theorem claim_C10_predation_first_occupant (st : WState) (uid : Nat) (a : Agent)
    (hl : lookupAgent st uid = some a)
    (hk : a.kind = AgentKind.shark)
    (hfs : fishCells st a.pos ≠ [])
    (q : Nat × Nat)
    (hq : q = (fishCells st a.pos).getD
      (st.rng st.ridx % (fishCells st a.pos).length) a.pos)
    (fid : Nat) (rest : List (Nat × AgentKind))
    (hcell : cellAt st q = (fid, AgentKind.fish) :: rest)
    (hrf : ∀ o ∈ rest, o.1 ≠ fid)
    (hru : ∀ o ∈ rest, o.1 ≠ uid)
    (hqlen : cellIdx st q < st.cells.length) :
    cellAt (sharkMoveAndEat st uid) q = rest ++ [(uid, AgentKind.shark)] ∧
    fid ∉ rosterIds (sharkMoveAndEat st uid) ∧
    (sharkMoveAndEat st uid).agents =
      (st.agents.filter (fun b => b.uid != fid)).map
        (fun b => if b.uid = uid then
            { b with pos := q, energy := b.energy + st.sharkEnergyFromFish } else b) := by
  unfold sharkMoveAndEat
  rw [hl]
  dsimp only
  rw [if_neg (by rw [List.isEmpty_eq_true]; exact hfs)]
  rw [← hq]
  split
  rotate_left
  · rename_i heq
    rw [cellAt_ridx, hcell] at heq
    simp at heq
  rename_i fid2 snd2 heq
  rw [cellAt_ridx, hcell] at heq
  simp only [List.head?_cons, Option.some.injEq, Prod.mk.injEq] at heq
  obtain ⟨rfl, rfl⟩ : fid2 = fid ∧ snd2 = AgentKind.fish := ⟨heq.1.symm, heq.2.symm⟩
  set st2 := scheduleRemove (removeFromGrid { st with ridx := st.ridx + 1 } fid2) fid2
    with hst2
  have hc2 : st2.cells.length = st.cells.length := cells_length_removeFromGrid _ _
  have hlen2 : cellIdx st2 q < st2.cells.length := by
    rw [hc2]
    exact hqlen
  have hcc : cellAt st2 q = rest := by
    rw [hst2, cellAt_scheduleRemove, cellAt_removeFromGrid, cellAt_ridx, hcell]
    rw [List.filter_cons_of_neg (by simp)]
    exact filter_ne_of_forall hrf
  refine ⟨?_, ?_, ?_⟩
  · rw [cellAt_updateAgent, cellAt_moveAgent_self hlen2, hcc, filter_ne_of_forall hru, hk]
  · rw [rosterIds_updateAgent_energy]
    unfold moveAgent
    rw [rosterIds_updateAgent_pos]
    show fid2 ∉ rosterIds st2
    rw [hst2]
    intro hmem
    unfold rosterIds scheduleRemove at hmem
    rw [List.mem_map] at hmem
    obtain ⟨b, hbm, hbe⟩ := hmem
    rw [List.mem_filter] at hbm
    rcases hbm with ⟨-, hb2⟩
    rw [bne_iff_ne] at hb2
    exact hb2 hbe
  · have hag : st2.agents = st.agents.filter (fun b => b.uid != fid2) := by
      rw [hst2]
      rfl
    unfold moveAgent updateAgent placeOnGrid setCellAt removeFromGrid
    dsimp only
    rw [List.map_map, hag]
    congr 1
    funext b
    by_cases hbu : b.uid = uid
    · simp [Function.comp, hbu]
    · simp [Function.comp, hbu]

theorem claim_C10_witness :
    cellAt (sharkMoveAndEat exSt3 2) (0, 0) =
        [(3, AgentKind.fish), (2, AgentKind.shark)] ∧
      1 ∉ rosterIds (sharkMoveAndEat exSt3 2) ∧
      (sharkMoveAndEat exSt3 2).agents =
        (exSt3.agents.filter (fun b => b.uid != 1)).map
          (fun b => if b.uid = 2 then { b with pos := ((0 : Nat), (0 : Nat)), energy := b.energy + exSt3.sharkEnergyFromFish } else b) :=
  claim_C10_predation_first_occupant exSt3 2
    { uid := 2, kind := AgentKind.shark, energy := 4, fert := 0, pos := (1, 1) }
    (by decide) rfl (by decide) (0, 0) (by decide) 1 [(3, AgentKind.fish)]
    (by decide) (by decide) (by decide) (by decide)

/-! ## Claim C1: energy change per activation -/

theorem lookupAgent_ridx {st : WState} {n v : Nat} :
    lookupAgent { st with ridx := n } v = lookupAgent st v := rfl

theorem lookupAgent_bump_cid {st : WState} {n v : Nat} :
    lookupAgent { st with currentId := n } v = lookupAgent st v := rfl

theorem lookupAgent_scheduleAdd_eq {st : WState} {b : Agent} {v : Nat} :
    lookupAgent (scheduleAdd st b) v =
      (lookupAgent st v).or (List.find? (fun a => a.uid == v) [b]) := by
  unfold lookupAgent scheduleAdd
  exact List.find?_append

theorem agent_add_zero (a : Agent) (p : Nat × Nat) :
    ({ a with pos := p, energy := a.energy + 0 } : Agent) = { a with pos := p } := by
  cases a
  simp

theorem lookupAgent_fishMove_self {st : WState} {u : Nat} {a : Agent}
    (hl : lookupAgent st u = some a) :
    ∃ p, lookupAgent (fishMove st u) u = some { a with pos := p } := by
  unfold fishMove
  rw [hl]
  dsimp only
  have hau : a.uid = u := (lookupAgent_mem hl).2
  by_cases he : ((neighborhood4 st.width st.height a.pos).filter
      (fun p => isCellEmpty st p)).isEmpty
  · refine ⟨a.pos, ?_⟩
    rw [if_pos he]
    exact hl
  · refine ⟨((neighborhood4 st.width st.height a.pos).filter
        (fun p => isCellEmpty st p)).getD
      (st.rng st.ridx % ((neighborhood4 st.width st.height a.pos).filter
        (fun p => isCellEmpty st p)).length) a.pos, ?_⟩
    rw [if_neg he, lookupAgent_moveAgent, lookupAgent_ridx, hl]
    simp [hau]

theorem lookupAgent_reproduce_self {st : WState} {u : Nat} {b : Agent}
    (hl : lookupAgent st u = some b) :
    ∃ n, lookupAgent (reproduce st u) u = some { b with fert := n } := by
  unfold reproduce
  rw [hl]
  dsimp only
  have hbu : b.uid = u := (lookupAgent_mem hl).2
  split
  · refine ⟨0, ?_⟩
    rw [lookupAgent_updateAgent_fert, lookupAgent_scheduleAdd_eq, lookupAgent_placeOnGrid,
      lookupAgent_bump_cid, lookupAgent_updateAgent_fert, hl]
    simp [hbu, Option.or]
  · refine ⟨b.fert + 1, ?_⟩
    rw [lookupAgent_updateAgent_fert, hl]
    simp [hbu]

theorem head_uid_ne_of_kinds {st : WState} {q : Nat × Nat} {a : Agent} {fid : Nat}
    (hg : GridKindsOK st) (ha : a ∈ st.agents) (hk : a.kind = AgentKind.shark)
    (hh : (cellAt st q).head? = some (fid, AgentKind.fish)) : a.uid ≠ fid := by
  intro heq
  cases hc : cellAt st q with
  | nil =>
      rw [hc] at hh
      simp at hh
  | cons o t =>
      rw [hc] at hh
      simp only [List.head?_cons, Option.some.injEq] at hh
      have hmem : cellAt st q ∈ st.cells := cellAt_mem_cells (by rw [hc]; simp)
      have homem : o ∈ cellAt st q := by
        rw [hc]
        exact List.mem_cons_self _ _
      have hko := hg _ hmem _ homem _ ha (by rw [hh]; exact heq)
      rw [hh] at hko
      rw [hk] at hko
      simp at hko

theorem lookupAgent_sharkMoveAndEat_self {st : WState} {u : Nat} {a : Agent}
    (hl : lookupAgent st u = some a) (hg : GridKindsOK st)
    (hk : a.kind = AgentKind.shark) :
    ∃ p, lookupAgent (sharkMoveAndEat st u) u =
      some { a with pos := p, energy := a.energy +
        (if (fishCells st a.pos).isEmpty then 0 else st.sharkEnergyFromFish) } := by
  unfold sharkMoveAndEat
  rw [hl]
  dsimp only
  have hau : a.uid = u := (lookupAgent_mem hl).2
  by_cases hfe : (fishCells st a.pos).isEmpty
  · by_cases hee : ((neighborhood8 st.width st.height a.pos).filter
        (fun p => isCellEmpty st p)).isEmpty
    · refine ⟨a.pos, ?_⟩
      rw [if_pos hfe, if_pos hee, if_pos hfe, agent_add_zero]
      exact hl
    · refine ⟨((neighborhood8 st.width st.height a.pos).filter
          (fun p => isCellEmpty st p)).getD
        (st.rng st.ridx % ((neighborhood8 st.width st.height a.pos).filter
          (fun p => isCellEmpty st p)).length) a.pos, ?_⟩
      rw [if_pos hfe, if_neg hee, if_pos hfe, agent_add_zero, lookupAgent_moveAgent,
        lookupAgent_ridx, hl]
      simp [hau]
  · have hfs : fishCells st a.pos ≠ [] := by
      intro h0
      rw [h0] at hfe
      exact hfe rfl
    have hqmem : (fishCells st a.pos).getD
        (st.rng st.ridx % (fishCells st a.pos).length) a.pos ∈ fishCells st a.pos := by
      have hlt : st.rng st.ridx % (fishCells st a.pos).length <
          (fishCells st a.pos).length :=
        Nat.mod_lt _ (List.length_pos.mpr hfs)
      rw [List.getD_eq_getElem _ _ hlt]
      exact List.getElem_mem hlt
    obtain ⟨n, hhead⟩ := mem_fishCells hqmem
    refine ⟨(fishCells st a.pos).getD
      (st.rng st.ridx % (fishCells st a.pos).length) a.pos, ?_⟩
    rw [if_neg hfe, if_neg hfe]
    split
    rotate_left
    · rename_i heq
      rw [cellAt_ridx] at heq
      rw [hhead] at heq
      cases heq
    rename_i fid2 snd2 heq
    rw [cellAt_ridx, hhead] at heq
    simp only [Option.some.injEq, Prod.mk.injEq] at heq
    obtain ⟨h5, h6⟩ := heq
    subst h5
    subst h6
    have hne : a.uid ≠ n := head_uid_ne_of_kinds hg (lookupAgent_mem hl).1 hk hhead
    rw [lookupAgent_updateAgent_energy, lookupAgent_moveAgent,
      lookupAgent_scheduleRemove_ne (by rw [← hau]; exact hne),
      lookupAgent_removeFromGrid, lookupAgent_ridx, hl]
    simp [hau]

/-- C1: on every activation the agent's energy changes by exactly −1,
except that a Shark whose move-and-eat step succeeds first gains the
configured `shark_energy_from_fish` bonus (`activationBonus`); the
post-activation energy is prior energy plus bonus minus 1, and when that
value is ≤ 0 the agent is removed (so it no longer has an energy). -/
theorem claim_C1_energy_per_activation (st : WState) (uid : Nat) (a : Agent)
    (hl : lookupAgent st uid = some a) (hg : GridKindsOK st) :
    (lookupAgent (activateAgent st uid) uid).map Agent.energy =
      if a.energy + activationBonus st a - 1 ≤ 0 then none
      else some (a.energy + activationBonus st a - 1) := by
  unfold activateAgent
  rw [hl]
  dsimp only
  have hau : a.uid = uid := (lookupAgent_mem hl).2
  cases hka : a.kind with
  | fish =>
      have hb0 : activationBonus st a = 0 := by
        simp [activationBonus, hka]
      rw [hb0, add_zero]
      unfold fishStep
      dsimp only
      obtain ⟨p1, h1⟩ := lookupAgent_fishMove_self hl
      have h2 : lookupAgent (updateAgent (fishMove st uid) uid
          (fun c => { c with energy := c.energy - 1 })) uid =
          some { a with pos := p1, energy := a.energy - 1 } := by
        rw [lookupAgent_updateAgent_energy, h1]
        simp [hau]
      obtain ⟨n2, h3⟩ := lookupAgent_reproduce_self h2
      rw [h3]
      split
      rotate_left
      · rename_i heq
        cases heq
      rename_i a3 heq
      cases heq
      dsimp only
      by_cases hE : a.energy - 1 ≤ 0
      · rw [if_pos hE, if_pos hE, lookupAgent_scheduleRemove_self]
        rfl
      · rw [if_neg hE, if_neg hE, h3]
        rfl
  | shark =>
      have hbe : activationBonus st a =
          (if (fishCells st a.pos).isEmpty then 0 else st.sharkEnergyFromFish) := by
        by_cases hf : (fishCells st a.pos).isEmpty
        · rw [if_pos hf]
          rw [List.isEmpty_eq_true] at hf
          simp [activationBonus, hf]
        · rw [if_neg hf]
          have h0 : fishCells st a.pos ≠ [] := by
            intro h1
            rw [h1] at hf
            exact hf rfl
          simp [activationBonus, hka, h0]
      rw [hbe]
      unfold sharkStep
      dsimp only
      obtain ⟨p1, h1⟩ := lookupAgent_sharkMoveAndEat_self hl hg hka
      obtain ⟨n2, h2⟩ := lookupAgent_reproduce_self h1
      have h3 : lookupAgent (updateAgent (reproduce (sharkMoveAndEat st uid) uid) uid
          (fun c => { c with energy := c.energy - 1 })) uid =
          some { a with
                 pos := p1,
                 energy := a.energy + (if (fishCells st a.pos).isEmpty then 0
                   else st.sharkEnergyFromFish) - 1,
                 fert := n2 } := by
        rw [lookupAgent_updateAgent_energy, h2]
        simp [hau]
      rw [h3]
      split
      rotate_left
      · rename_i heq
        cases heq
      rename_i a3 heq
      cases heq
      dsimp only
      by_cases hE : a.energy +
          (if (fishCells st a.pos).isEmpty then 0 else st.sharkEnergyFromFish) - 1 ≤ 0
      · rw [if_pos hE, if_pos hE, lookupAgent_scheduleRemove_self]
        rfl
      · rw [if_neg hE, if_neg hE, h3]
        rfl

theorem claim_C1_witness :
    (lookupAgent (activateAgent exSt 2) 2).map Agent.energy =
      if (4 : Int) + activationBonus exSt ({ uid := 2, kind := AgentKind.shark, energy := 4, fert := 0, pos := (1, 1) } : Agent) - 1 ≤ 0
      then none
      else some ((4 : Int) + activationBonus exSt ({ uid := 2, kind := AgentKind.shark, energy := 4, fert := 0, pos := (1, 1) } : Agent) - 1) :=
  claim_C1_energy_per_activation exSt 2
    { uid := 2, kind := AgentKind.shark, energy := 4, fert := 0, pos := (1, 1) }
    (by decide) (by simp only [GridKindsOK]; decide)

/-! ## Claim C3: activation-once -/

theorem getElem_cons_eraseIdx_perm {l : List Nat} {k : Nat} (hk : k < l.length) :
    (l[k] :: l.eraseIdx k).Perm l := by
  have h1 : (l.erase l[k]).Perm (l.eraseIdx k) := List.erase_getElem hk
  have h2 : l.Perm (l[k] :: l.erase l[k]) :=
    List.perm_cons_erase (List.getElem_mem hk)
  exact ((h1.symm.cons _).trans h2.symm)

theorem shuffleList_perm_aux (n : Nat) (s : Nat → Nat) (i : Nat) (l : List Nat)
    (hn : l.length ≤ n) : (shuffleList s i l).Perm l := by
  induction n generalizing i l with
  | zero =>
      have : l = [] := List.length_eq_zero.mp (Nat.le_zero.mp hn)
      subst this
      simp [shuffleList]
  | succ n ih =>
      cases l with
      | nil => simp [shuffleList]
      | cons x xs =>
          rw [shuffleList]
          have hk : s i % (x :: xs).length < (x :: xs).length :=
            Nat.mod_lt _ (Nat.succ_pos _)
          have hlen : ((x :: xs).eraseIdx (s i % (x :: xs).length)).length ≤ n := by
            rw [List.length_eraseIdx, if_pos hk]
            simp only [List.length_cons] at hn ⊢
            omega
          have h1 := ih (i + 1) ((x :: xs).eraseIdx (s i % (x :: xs).length)) hlen
          have h2 : (x :: xs).getD (s i % (x :: xs).length) x = (x :: xs)[s i % (x :: xs).length] :=
            List.getD_eq_getElem _ _ hk
          rw [h2]
          exact (h1.cons _).trans (getElem_cons_eraseIdx_perm hk)

theorem shuffleList_perm (s : Nat → Nat) (i : Nat) (l : List Nat) :
    (shuffleList s i l).Perm l :=
  shuffleList_perm_aux l.length s i l (Nat.le_refl _)

theorem tickGo_acts_sublist (order : List Nat) (st : WState) :
    (tickGo order st).2.Sublist order := by
  induction order generalizing st with
  | nil => simp [tickGo]
  | cons u rest ih =>
      unfold tickGo
      split
      · dsimp only
        exact (ih _).cons₂ _
      · exact (ih st).cons _

/-- C3: in every tick, each id is activated at most once (the activated
sequence has no duplicates), only ids present on the roster at tick
start are activated, and any agent on the post-tick roster that was not
on the tick-start roster (a mid-tick newborn) was not activated. -/
theorem claim_C3_activation_once (st : WState) (hnd : (rosterIds st).Nodup) :
    (tick st).2.Nodup ∧
    (∀ u, u ∈ (tick st).2 → u ∈ rosterIds st) ∧
    (∀ b ∈ (tick st).1.agents, b.uid ∉ rosterIds st → b.uid ∉ (tick st).2) := by
  have htick : tick st = tickGo (shuffleList st.rng st.ridx (rosterIds st))
      { st with ridx := st.ridx + (rosterIds st).length } := rfl
  have hperm := shuffleList_perm st.rng st.ridx (rosterIds st)
  have hsub : (tick st).2.Sublist (shuffleList st.rng st.ridx (rosterIds st)) := by
    rw [htick]
    exact tickGo_acts_sublist _ _
  have hmem : ∀ u, u ∈ (tick st).2 → u ∈ rosterIds st :=
    fun u hu => hperm.subset (hsub.subset hu)
  refine ⟨?_, hmem, ?_⟩
  · exact hsub.nodup (hperm.nodup_iff.mpr hnd)
  · intro b _ hnot hacts
    exact hnot (hmem _ hacts)

theorem claim_C3_witness : (tick exSt).2.Nodup :=
  (claim_C3_activation_once exSt (by decide)).1

/-! ## Claim C9: fertility counter invariant -/

theorem find?_eq_of_mem_nodup {l : List Agent} {u : Nat} {b : Agent}
    (hnd : (l.map (fun x => x.uid)).Nodup) (hb : b ∈ l) (hu : b.uid = u) :
    l.find? (fun a => a.uid == u) = some b := by
  induction l with
  | nil => cases hb
  | cons a t ih =>
      rw [List.map_cons, List.nodup_cons] at hnd
      rcases List.mem_cons.mp hb with rfl | hbt
      · rw [List.find?_cons_of_pos _ (by simp [hu])]
      · have hau : ¬ a.uid = u := by
          intro he
          exact hnd.1 (by rw [he, ← hu]; exact List.mem_map_of_mem _ hbt)
        rw [List.find?_cons_of_neg _ (by simp [hau])]
        exact ih hnd.2 hbt

theorem lookup_eq_of_mem_nodup {st : WState} {u : Nat} {b : Agent}
    (hnd : (rosterIds st).Nodup) (hb : b ∈ st.agents) (hu : b.uid = u) :
    lookupAgent st u = some b :=
  find?_eq_of_mem_nodup hnd hb hu

theorem one_le_fertT {st : WState} (h1 : 1 ≤ st.fishFertilityThreshold)
    (h2 : 1 ≤ st.sharkFertilityThreshold) (k : AgentKind) : 1 ≤ fertT st k := by
  cases k
  · exact h1
  · exact h2

theorem reproduce_roster_formula {st : WState} {u : Nat} {a : Agent}
    (hl : lookupAgent st u = some a) (ht : fertT st a.kind ≤ a.fert + 1) :
    (reproduce st u).agents =
        st.agents.map (fun b => if b.uid = u then { b with fert := 0 } else b) ++
          [{ uid := st.currentId + 1, kind := a.kind, energy := initE st a.kind,
             fert := 0, pos := a.pos }] ∧
      (reproduce st u).currentId = st.currentId + 1 := by
  unfold reproduce
  rw [hl]
  dsimp only
  rw [if_pos ht]
  refine ⟨?_, rfl⟩
  show ((st.agents.map _ ++ _).map _) = _
  rw [List.map_append, List.map_map]
  congr 1
  · congr 1
    funext b
    by_cases hbu : b.uid = u
    · simp [Function.comp, hbu]
    · simp [Function.comp, hbu]
  · simp only [List.map_cons, List.map_nil]
    congr 1
    split
    · rfl
    · rfl

theorem reproduce_roster_formula_no {st : WState} {u : Nat} {a : Agent}
    (hl : lookupAgent st u = some a) (ht : ¬ fertT st a.kind ≤ a.fert + 1) :
    (reproduce st u).agents =
        st.agents.map (fun b => if b.uid = u then { b with fert := b.fert + 1 } else b) ∧
      (reproduce st u).currentId = st.currentId := by
  unfold reproduce
  rw [hl]
  dsimp only
  rw [if_neg ht]
  exact ⟨rfl, rfl⟩

theorem simInv_of_parts {st st' : WState} (hfr : Frame st st')
    (h1 : 1 ≤ st.fishFertilityThreshold) (h2 : 1 ≤ st.sharkFertilityThreshold)
    (hnd : (rosterIds st').Nodup) (hbd : ∀ b ∈ st'.agents, b.uid ≤ st'.currentId)
    (hfo : ∀ b ∈ st'.agents, b.fert < fertT st b.kind) :
    SimInv st' := by
  refine ⟨?_, ?_, ⟨hnd, hbd⟩, ?_⟩
  · rw [hfr.fft_eq]
    exact h1
  · rw [hfr.sft_eq]
    exact h2
  · intro b hb
    rw [fertT_frame hfr]
    exact hfo b hb

theorem simInv_updateAgent {st : WState} {u : Nat} {f : Agent → Agent} (h : SimInv st)
    (hf : ∀ b, (f b).uid = b.uid ∧ (f b).fert = b.fert ∧ (f b).kind = b.kind) :
    SimInv (updateAgent st u f) := by
  obtain ⟨h1, h2, ⟨hnd, hbd⟩, hfo⟩ := h
  refine simInv_of_parts (frame_updateAgent st u f) h1 h2 ?_ ?_ ?_
  · rw [rosterIds_updateAgent (fun b => (hf b).1)]
    exact hnd
  · intro b hbmem
    unfold updateAgent at hbmem
    dsimp only at hbmem
    rw [List.mem_map] at hbmem
    obtain ⟨c, hc, rfl⟩ := hbmem
    by_cases hcu : c.uid = u
    · rw [if_pos hcu, (hf c).1]
      exact hbd c hc
    · rw [if_neg hcu]
      exact hbd c hc
  · intro b hbmem
    unfold updateAgent at hbmem
    dsimp only at hbmem
    rw [List.mem_map] at hbmem
    obtain ⟨c, hc, rfl⟩ := hbmem
    by_cases hcu : c.uid = u
    · rw [if_pos hcu, (hf c).2.1, (hf c).2.2]
      exact hfo c hc
    · rw [if_neg hcu]
      exact hfo c hc

theorem simInv_scheduleRemove {st : WState} {u : Nat} (h : SimInv st) :
    SimInv (scheduleRemove st u) := by
  obtain ⟨h1, h2, ⟨hnd, hbd⟩, hfo⟩ := h
  refine simInv_of_parts (frame_scheduleRemove st u) h1 h2 ?_ ?_ ?_
  · have hs : (scheduleRemove st u).agents.Sublist st.agents := List.filter_sublist _
    exact (hs.map _).nodup hnd
  · intro b hb
    exact hbd b (List.mem_of_mem_filter hb)
  · intro b hb
    exact hfo b (List.mem_of_mem_filter hb)

theorem simInv_moveAgent {st : WState} {u : Nat} {k : AgentKind} {p : Nat × Nat}
    (h : SimInv st) : SimInv (moveAgent st u k p) :=
  simInv_updateAgent h (fun _ => ⟨rfl, rfl, rfl⟩)

theorem simInv_fishMove {st : WState} {u : Nat} (h : SimInv st) :
    SimInv (fishMove st u) := by
  unfold fishMove
  split
  · exact h
  · dsimp only
    split
    · exact h
    · exact simInv_moveAgent h

theorem simInv_reproduce {st : WState} {u : Nat} (h : SimInv st) :
    SimInv (reproduce st u) := by
  cases hlu : lookupAgent st u with
  | none =>
      unfold reproduce
      rw [hlu]
      exact h
  | some a =>
      obtain ⟨h1, h2, ⟨hnd, hbd⟩, hfo⟩ := h
      by_cases ht : fertT st a.kind ≤ a.fert + 1
      · obtain ⟨hag, hcid⟩ := reproduce_roster_formula hlu ht
        have hids : rosterIds (reproduce st u) = rosterIds st ++ [st.currentId + 1] := by
          unfold rosterIds
          rw [hag, List.map_append, List.map_map]
          congr 1
          congr 1
          funext b
          by_cases hbu : b.uid = u
          · simp [Function.comp, hbu]
          · simp [Function.comp, hbu]
        refine simInv_of_parts (frame_reproduce st u) h1 h2 ?_ ?_ ?_
        · rw [hids]
          have hfresh : st.currentId + 1 ∉ rosterIds st := by
            intro hmem
            unfold rosterIds at hmem
            rw [List.mem_map] at hmem
            obtain ⟨c, hc, hce⟩ := hmem
            have := hbd c hc
            omega
          simp [List.nodup_append, hnd, hfresh]
        · intro b hb
          rw [hag] at hb
          rw [hcid]
          rcases List.mem_append.mp hb with hb1 | hb2
          · rw [List.mem_map] at hb1
            obtain ⟨c, hc, rfl⟩ := hb1
            by_cases hcu : c.uid = u
            · rw [if_pos hcu]
              have := hbd c hc
              dsimp only
              omega
            · rw [if_neg hcu]
              have := hbd c hc
              omega
          · rw [List.mem_singleton.mp hb2]
        · intro b hb
          rw [hag] at hb
          rcases List.mem_append.mp hb with hb1 | hb2
          · rw [List.mem_map] at hb1
            obtain ⟨c, hc, rfl⟩ := hb1
            by_cases hcu : c.uid = u
            · rw [if_pos hcu]
              dsimp only
              exact one_le_fertT h1 h2 _
            · rw [if_neg hcu]
              exact hfo c hc
          · rw [List.mem_singleton.mp hb2]
            dsimp only
            exact one_le_fertT h1 h2 _
      · obtain ⟨hag, hcid⟩ := reproduce_roster_formula_no hlu ht
        have hids : rosterIds (reproduce st u) = rosterIds st := by
          unfold rosterIds
          rw [hag, List.map_map]
          congr 1
          funext b
          by_cases hbu : b.uid = u
          · simp [Function.comp, hbu]
          · simp [Function.comp, hbu]
        refine simInv_of_parts (frame_reproduce st u) h1 h2 ?_ ?_ ?_
        · rw [hids]
          exact hnd
        · intro b hb
          rw [hag] at hb
          rw [hcid]
          rw [List.mem_map] at hb
          obtain ⟨c, hc, rfl⟩ := hb
          by_cases hcu : c.uid = u
          · rw [if_pos hcu]
            exact hbd c hc
          · rw [if_neg hcu]
            exact hbd c hc
        · intro b hb
          rw [hag] at hb
          rw [List.mem_map] at hb
          obtain ⟨c, hc, rfl⟩ := hb
          by_cases hcu : c.uid = u
          · rw [if_pos hcu]
            have hcla : c = a := by
              have h9 := lookup_eq_of_mem_nodup hnd hc hcu
              rw [hlu] at h9
              cases h9
              rfl
            subst hcla
            have := hfo c hc
            dsimp only
            omega
          · rw [if_neg hcu]
            exact hfo c hc

theorem simInv_fishStep {st : WState} {u : Nat} (h : SimInv st) :
    SimInv (fishStep st u) := by
  unfold fishStep
  dsimp only
  have hA : SimInv (reproduce (updateAgent (fishMove st u) u
      (fun c => { c with energy := c.energy - 1 })) u) :=
    simInv_reproduce (simInv_updateAgent (simInv_fishMove h) (fun _ => ⟨rfl, rfl, rfl⟩))
  split
  · split
    · exact simInv_scheduleRemove hA
    · exact hA
  · exact hA

theorem simInv_sharkMoveAndEat {st : WState} {u : Nat} (h : SimInv st) :
    SimInv (sharkMoveAndEat st u) := by
  unfold sharkMoveAndEat
  split
  · exact h
  · dsimp only
    split
    · split
      · exact h
      · exact simInv_moveAgent h
    · split
      · exact simInv_updateAgent (simInv_moveAgent (simInv_scheduleRemove h))
          (fun _ => ⟨rfl, rfl, rfl⟩)
      · exact h

theorem simInv_sharkStep {st : WState} {u : Nat} (h : SimInv st) :
    SimInv (sharkStep st u) := by
  unfold sharkStep
  dsimp only
  have hA : SimInv (updateAgent (reproduce (sharkMoveAndEat st u) u) u
      (fun c => { c with energy := c.energy - 1 })) :=
    simInv_updateAgent (simInv_reproduce (simInv_sharkMoveAndEat h))
      (fun _ => ⟨rfl, rfl, rfl⟩)
  split
  · split
    · exact simInv_scheduleRemove hA
    · exact hA
  · exact hA

theorem simInv_activateAgent {st : WState} {u : Nat} (h : SimInv st) :
    SimInv (activateAgent st u) := by
  unfold activateAgent
  split
  · exact h
  · split
    · exact simInv_fishStep h
    · exact simInv_sharkStep h

theorem simInv_tickGo {st : WState} {order : List Nat} (h : SimInv st) :
    SimInv (tickGo order st).1 := by
  induction order generalizing st with
  | nil => exact h
  | cons u rest ih =>
      unfold tickGo
      split
      · exact ih (simInv_activateAgent h)
      · exact ih h

theorem simInv_tick {st : WState} (h : SimInv st) : SimInv (tick st).1 := by
  have htick : (tick st).1 = (tickGo (shuffleList st.rng st.ridx (rosterIds st))
      { st with ridx := st.ridx + (rosterIds st).length }).1 := rfl
  rw [htick]
  exact simInv_tickGo h

theorem lookupAgent_reproduce_fert {st : WState} {u : Nat} {b : Agent}
    (hl : lookupAgent st u = some b) :
    lookupAgent (reproduce st u) u =
      some { b with fert := if fertT st b.kind ≤ b.fert + 1 then 0 else b.fert + 1 } := by
  unfold reproduce
  rw [hl]
  dsimp only
  have hbu : b.uid = u := (lookupAgent_mem hl).2
  by_cases ht : fertT st b.kind ≤ b.fert + 1
  · rw [if_pos ht, if_pos ht, lookupAgent_updateAgent_fert, lookupAgent_scheduleAdd_eq,
      lookupAgent_placeOnGrid, lookupAgent_bump_cid, lookupAgent_updateAgent_fert, hl]
    simp [hbu, Option.or]
  · rw [if_neg ht, if_neg ht, lookupAgent_updateAgent_fert, hl]
    simp [hbu]

theorem lookupAgent_fishStep_fert {st : WState} {u : Nat} {a : Agent}
    (hla : lookupAgent st u = some a) :
    lookupAgent (fishStep st u) u = none ∨
    ∃ p e, lookupAgent (fishStep st u) u =
      some { a with
             pos := p,
             energy := e,
             fert := (if fertT st a.kind ≤ a.fert + 1 then 0 else a.fert + 1) } := by
  unfold fishStep
  dsimp only
  have hau : a.uid = u := (lookupAgent_mem hla).2
  obtain ⟨p1, h1⟩ := lookupAgent_fishMove_self hla
  have h2 : lookupAgent (updateAgent (fishMove st u) u
      (fun c => { c with energy := c.energy - 1 })) u =
      some { a with pos := p1, energy := a.energy - 1 } := by
    rw [lookupAgent_updateAgent_energy, h1]
    simp [hau]
  have h3 := lookupAgent_reproduce_fert h2
  rw [fertT_frame (frame_trans (frame_fishMove st u) (frame_updateAgent _ _ _))] at h3
  dsimp only at h3
  rw [h3]
  split
  rotate_left
  · rename_i heq
    cases heq
  rename_i a3 heq
  cases heq
  dsimp only
  by_cases hE : a.energy - 1 ≤ 0
  · left
    rw [if_pos hE, lookupAgent_scheduleRemove_self]
  · right
    refine ⟨p1, a.energy - 1, ?_⟩
    rw [if_neg hE]
    exact h3

theorem lookupAgent_sharkStep_fert {st : WState} {u : Nat} {a : Agent}
    (hla : lookupAgent st u = some a) (hg : GridKindsOK st)
    (hk : a.kind = AgentKind.shark) :
    lookupAgent (sharkStep st u) u = none ∨
    ∃ p e, lookupAgent (sharkStep st u) u =
      some { a with
             pos := p,
             energy := e,
             fert := (if fertT st a.kind ≤ a.fert + 1 then 0 else a.fert + 1) } := by
  unfold sharkStep
  dsimp only
  have hau : a.uid = u := (lookupAgent_mem hla).2
  obtain ⟨p1, h1⟩ := lookupAgent_sharkMoveAndEat_self hla hg hk
  have h2 := lookupAgent_reproduce_fert h1
  rw [fertT_frame (frame_sharkMoveAndEat st u)] at h2
  dsimp only at h2
  have h3 : lookupAgent (updateAgent (reproduce (sharkMoveAndEat st u) u) u
      (fun c => { c with energy := c.energy - 1 })) u =
      some { a with
             pos := p1,
             energy := (a.energy + (if (fishCells st a.pos).isEmpty then 0
               else st.sharkEnergyFromFish)) - 1,
             fert := if fertT st a.kind ≤ a.fert + 1 then 0 else a.fert + 1 } := by
    rw [lookupAgent_updateAgent_energy, h2]
    simp [hau]
  rw [h3]
  split
  rotate_left
  · rename_i heq
    cases heq
  rename_i a3 heq
  cases heq
  dsimp only
  by_cases hE : (a.energy + (if (fishCells st a.pos).isEmpty then 0
      else st.sharkEnergyFromFish)) - 1 ≤ 0
  · left
    rw [if_pos hE, lookupAgent_scheduleRemove_self]
  · right
    refine ⟨p1, (a.energy + (if (fishCells st a.pos).isEmpty then 0
      else st.sharkEnergyFromFish)) - 1, ?_⟩
    rw [if_neg hE]
    exact h3

/-- C9: with both fertility thresholds at least 1 and a sane initial
state, every live agent's fertility counter stays strictly below its
variant's threshold across a whole tick (so it lies in [0, threshold−1]
after every completed activation); thresholds are unchanged by the tick;
and each single activation changes the surviving agent's counter to
exactly `fert + 1`, except that it is reset to 0 in the activation in
which `fert + 1` reaches the threshold. -/
theorem claim_C9_fertility_range (st : WState)
    (h1 : 1 ≤ st.fishFertilityThreshold) (h2 : 1 ≤ st.sharkFertilityThreshold)
    (hro : RosterOK st) (hfo : FertOK st) (hg : GridKindsOK st) :
    FertOK (tick st).1 ∧
    (∀ k, fertT (tick st).1 k = fertT st k) ∧
    (∀ uid a b, lookupAgent st uid = some a →
      lookupAgent (activateAgent st uid) uid = some b →
      b.fert = if fertT st a.kind ≤ a.fert + 1 then 0 else a.fert + 1) := by
  refine ⟨(simInv_tick ⟨h1, h2, hro, hfo⟩).2.2.2, fertT_frame (frame_tick st), ?_⟩
  intro uid a b hla hlb
  unfold activateAgent at hlb
  rw [hla] at hlb
  dsimp only at hlb
  cases hka : a.kind with
  | fish =>
      rw [hka] at hlb
      dsimp only at hlb
      rcases lookupAgent_fishStep_fert hla with hnone | ⟨p, e, hsome⟩
      · rw [hnone] at hlb
        cases hlb
      · rw [hsome] at hlb
        cases hlb
        simp [hka]
  | shark =>
      rw [hka] at hlb
      dsimp only at hlb
      rcases lookupAgent_sharkStep_fert hla hg hka with hnone | ⟨p, e, hsome⟩
      · rw [hnone] at hlb
        cases hlb
      · rw [hsome] at hlb
        cases hlb
        simp [hka]

theorem claim_C9_witness : FertOK (tick exSt).1 :=
  (claim_C9_fertility_range exSt (by decide) (by decide)
    (by simp only [RosterOK]; decide) (by simp only [FertOK]; decide)
    (by simp only [GridKindsOK]; decide)).1

/-! ## Claim C4: death finality -/

theorem cells_clean_removeFromGrid (st : WState) (x : Nat) :
    ∀ c ∈ (removeFromGrid st x).cells, ∀ o ∈ c, o.1 ≠ x := by
  intro c hc o ho
  unfold removeFromGrid at hc
  dsimp only at hc
  rw [List.mem_map] at hc
  obtain ⟨c0, _, rfl⟩ := hc
  have := List.of_mem_filter ho
  simpa using this

theorem roster_not_mem_scheduleRemove (st : WState) (x : Nat) :
    x ∉ rosterIds (scheduleRemove st x) := by
  intro hmem
  unfold rosterIds scheduleRemove at hmem
  dsimp only at hmem
  rw [List.mem_map] at hmem
  obtain ⟨b, hb, hbe⟩ := hmem
  have := List.of_mem_filter hb
  rw [bne_iff_ne] at this
  exact this hbe

theorem removed_state_clean (st : WState) (x : Nat) :
    x ∉ rosterIds (scheduleRemove (removeFromGrid st x) x) ∧
    ∀ c ∈ (scheduleRemove (removeFromGrid st x) x).cells, ∀ o ∈ c, o.1 ≠ x :=
  ⟨roster_not_mem_scheduleRemove _ _, cells_clean_removeFromGrid st x⟩

theorem dead_updateAgent {st : WState} {x u : Nat} {f : Agent → Agent}
    (hf : ∀ b, (f b).uid = b.uid) (h : Dead st x) : Dead (updateAgent st u f) x := by
  obtain ⟨h1, h2, h3⟩ := h
  refine ⟨?_, h2, h3⟩
  rw [rosterIds_updateAgent hf]
  exact h1

theorem dead_scheduleRemove {st : WState} {x u : Nat} (h : Dead st x) :
    Dead (scheduleRemove st u) x := by
  obtain ⟨h1, h2, h3⟩ := h
  refine ⟨?_, h2, h3⟩
  intro hmem
  unfold rosterIds scheduleRemove at hmem
  dsimp only at hmem
  rw [List.mem_map] at hmem
  obtain ⟨b, hb, hbe⟩ := hmem
  exact h1 (by unfold rosterIds; rw [List.mem_map]; exact ⟨b, List.mem_of_mem_filter hb, hbe⟩)

theorem dead_removeFromGrid {st : WState} {x u : Nat} (h : Dead st x) :
    Dead (removeFromGrid st u) x := by
  obtain ⟨h1, h2, h3⟩ := h
  refine ⟨h1, ?_, h3⟩
  intro c hc o ho
  unfold removeFromGrid at hc
  dsimp only at hc
  rw [List.mem_map] at hc
  obtain ⟨c0, hc0, rfl⟩ := hc
  exact h2 c0 hc0 o (List.mem_of_mem_filter ho)

theorem dead_placeOnGrid {st : WState} {x u : Nat} {k : AgentKind} {p : Nat × Nat}
    (hu : u ≠ x) (h : Dead st x) : Dead (placeOnGrid st u k p) x := by
  obtain ⟨h1, h2, h3⟩ := h
  refine ⟨h1, ?_, h3⟩
  intro c hc o ho
  unfold placeOnGrid setCellAt at hc
  dsimp only at hc
  rcases List.mem_or_eq_of_mem_set hc with hc1 | rfl
  · exact h2 c hc1 o ho
  · rcases List.mem_append.mp ho with ho1 | ho2
    · exact h2 _ (cellAt_mem_cells (fun he => by rw [he] at ho1; cases ho1)) o ho1
    · rw [List.mem_singleton.mp ho2]
      exact hu

theorem dead_scheduleAdd {st : WState} {x : Nat} {b : Agent}
    (hb : b.uid ≠ x) (h : Dead st x) : Dead (scheduleAdd st b) x := by
  obtain ⟨h1, h2, h3⟩ := h
  refine ⟨?_, h2, h3⟩
  intro hmem
  unfold rosterIds scheduleAdd at hmem
  dsimp only at hmem
  rw [List.map_append, List.mem_append] at hmem
  rcases hmem with hm1 | hm2
  · exact h1 hm1
  · rw [List.map_cons, List.map_nil, List.mem_singleton] at hm2
    exact hb hm2.symm

theorem dead_moveAgent {st : WState} {x u : Nat} {k : AgentKind} {p : Nat × Nat}
    (hu : u ≠ x) (h : Dead st x) : Dead (moveAgent st u k p) x :=
  dead_updateAgent (fun _ => rfl) (dead_placeOnGrid hu (dead_removeFromGrid h))

theorem dead_ridx {st : WState} {x n : Nat} (h : Dead st x) :
    Dead { st with ridx := n } x := h

theorem ne_of_lookup_some_dead {st : WState} {x u : Nat} {a : Agent}
    (hl : lookupAgent st u = some a) (h : Dead st x) : u ≠ x := by
  intro he
  subst he
  exact h.1 (by
    unfold rosterIds
    rw [List.mem_map]
    exact ⟨a, (lookupAgent_mem hl).1, (lookupAgent_mem hl).2⟩)

theorem dead_fishMove {st : WState} {x u : Nat} (h : Dead st x) :
    Dead (fishMove st u) x := by
  unfold fishMove
  split
  · exact h
  · dsimp only
    split
    · exact h
    · rename_i a hl _
      exact dead_moveAgent (ne_of_lookup_some_dead hl h) (dead_ridx h)

theorem dead_reproduce {st : WState} {x u : Nat} (h : Dead st x) :
    Dead (reproduce st u) x := by
  unfold reproduce
  split
  · exact h
  · dsimp only
    split
    · have hcid : st.currentId + 1 ≠ x := by
        have := h.2.2
        omega
      have hd1 : Dead (updateAgent st u (fun b => { b with fert := b.fert + 1 })) x :=
        dead_updateAgent (fun _ => rfl) h
      refine dead_updateAgent (fun _ => rfl)
        (dead_scheduleAdd hcid (dead_placeOnGrid hcid ?_))
      refine ⟨hd1.1, hd1.2.1, ?_⟩
      have := h.2.2
      dsimp only [updateAgent]
      omega
    · exact dead_updateAgent (fun _ => rfl) h

theorem dead_fishStep {st : WState} {x u : Nat} (h : Dead st x) :
    Dead (fishStep st u) x := by
  unfold fishStep
  dsimp only
  have hA : Dead (reproduce (updateAgent (fishMove st u) u
      (fun c => { c with energy := c.energy - 1 })) u) x :=
    dead_reproduce (dead_updateAgent (fun _ => rfl) (dead_fishMove h))
  split
  · split
    · exact dead_scheduleRemove (dead_removeFromGrid hA)
    · exact hA
  · exact hA

theorem dead_sharkMoveAndEat {st : WState} {x u : Nat} (h : Dead st x) :
    Dead (sharkMoveAndEat st u) x := by
  unfold sharkMoveAndEat
  split
  · exact h
  · rename_i a hl
    dsimp only
    split
    · split
      · exact h
      · exact dead_moveAgent (ne_of_lookup_some_dead hl h) (dead_ridx h)
    · split
      · exact dead_updateAgent (fun _ => rfl)
          (dead_moveAgent (ne_of_lookup_some_dead hl h)
            (dead_scheduleRemove (dead_removeFromGrid (dead_ridx h))))
      · exact dead_ridx h

theorem dead_sharkStep {st : WState} {x u : Nat} (h : Dead st x) :
    Dead (sharkStep st u) x := by
  unfold sharkStep
  dsimp only
  have hA : Dead (updateAgent (reproduce (sharkMoveAndEat st u) u) u
      (fun c => { c with energy := c.energy - 1 })) x :=
    dead_updateAgent (fun _ => rfl) (dead_reproduce (dead_sharkMoveAndEat h))
  split
  · split
    · exact dead_scheduleRemove (dead_removeFromGrid hA)
    · exact hA
  · exact hA

theorem dead_activateAgent {st : WState} {x u : Nat} (h : Dead st x) :
    Dead (activateAgent st u) x := by
  unfold activateAgent
  split
  · exact h
  · split
    · exact dead_fishStep h
    · exact dead_sharkStep h

theorem dead_tickGo {st : WState} {x : Nat} {order : List Nat} (h : Dead st x) :
    Dead (tickGo order st).1 x ∧ x ∉ (tickGo order st).2 := by
  induction order generalizing st with
  | nil =>
      refine ⟨h, ?_⟩
      simp [tickGo]
  | cons u rest ih =>
      unfold tickGo
      split
      · rename_i hany
        dsimp only
        obtain ⟨hd, hn⟩ := ih (dead_activateAgent h)
        refine ⟨hd, ?_⟩
        intro hmem
        rcases List.mem_cons.mp hmem with rfl | hm2
        · rw [List.any_eq_true] at hany
          obtain ⟨b, hb, hbe⟩ := hany
          rw [beq_iff_eq] at hbe
          exact h.1 (by unfold rosterIds; rw [List.mem_map]; exact ⟨b, hb, hbe⟩)
        · exact hn hm2
      · exact ih h

theorem dead_tick {st : WState} {x : Nat} (h : Dead st x) :
    Dead (tick st).1 x ∧ x ∉ (tick st).2 := by
  have htick : tick st = tickGo (shuffleList st.rng st.ridx (rosterIds st))
      { st with ridx := st.ridx + (rosterIds st).length } := rfl
  rw [htick]
  exact dead_tickGo (dead_ridx h)

theorem dead_tickIter {st : WState} {x : Nat} (h : Dead st x) (n : Nat) :
    Dead (tickIter n st) x := by
  induction n generalizing st with
  | zero => exact h
  | succ n ih => exact ih (dead_tick h).1

/-- C4: destruction is atomic and final.  (i) An agent whose
post-activation energy is ≤ 0 ends its activation off both the roster
and the grid.  (ii) A Fish eaten during a Shark's move-and-eat step is
off both the roster and the grid when that step ends.  (iii) A destroyed
id (`Dead`: on neither structure, and not exceeding the id counter) is
destroyed in all later states: it survives any number of ticks without
ever rejoining the roster or the grid — hence it can never contribute to
a later snapshot's cell classification — and it is never activated in
any later tick. -/
theorem claim_C4_death_finality :
    (∀ st uid a, lookupAgent st uid = some a → GridKindsOK st →
      a.energy + activationBonus st a - 1 ≤ 0 →
      uid ∉ rosterIds (activateAgent st uid) ∧
        ∀ c ∈ (activateAgent st uid).cells, ∀ o ∈ c, o.1 ≠ uid) ∧
    (∀ st uid a q fid, lookupAgent st uid = some a →
      a.kind = AgentKind.shark → GridKindsOK st →
      fishCells st a.pos ≠ [] →
      q = (fishCells st a.pos).getD
        (st.rng st.ridx % (fishCells st a.pos).length) a.pos →
      (cellAt st q).head? = some (fid, AgentKind.fish) →
      fid ∉ rosterIds (sharkMoveAndEat st uid) ∧
        ∀ c ∈ (sharkMoveAndEat st uid).cells, ∀ o ∈ c, o.1 ≠ fid) ∧
    (∀ st uid, Dead st uid → ∀ n,
      Dead (tickIter n st) uid ∧ uid ∉ (tick (tickIter n st)).2) := by
  refine ⟨?_, ?_, ?_⟩
  · intro st uid a hl hg hE
    have hau : a.uid = uid := (lookupAgent_mem hl).2
    unfold activateAgent
    rw [hl]
    dsimp only
    cases hka : a.kind with
    | fish =>
        have hb0 : activationBonus st a = 0 := by
          simp [activationBonus, hka]
        rw [hb0] at hE
        unfold fishStep
        dsimp only
        obtain ⟨p1, h1⟩ := lookupAgent_fishMove_self hl
        have h2 : lookupAgent (updateAgent (fishMove st uid) uid
            (fun c => { c with energy := c.energy - 1 })) uid =
            some { a with pos := p1, energy := a.energy - 1 } := by
          rw [lookupAgent_updateAgent_energy, h1]
          simp [hau]
        obtain ⟨n2, h3⟩ := lookupAgent_reproduce_self h2
        rw [h3]
        split
        rotate_left
        · rename_i heq
          cases heq
        rename_i a3 heq
        cases heq
        dsimp only
        rw [if_pos (by omega)]
        exact removed_state_clean _ _
    | shark =>
        have hbe : activationBonus st a =
            (if (fishCells st a.pos).isEmpty then 0 else st.sharkEnergyFromFish) := by
          by_cases hf : (fishCells st a.pos).isEmpty
          · rw [if_pos hf]
            rw [List.isEmpty_eq_true] at hf
            simp [activationBonus, hf]
          · rw [if_neg hf]
            have h0 : fishCells st a.pos ≠ [] := by
              intro h1
              rw [h1] at hf
              exact hf rfl
            simp [activationBonus, hka, h0]
        rw [hbe] at hE
        unfold sharkStep
        dsimp only
        obtain ⟨p1, h1⟩ := lookupAgent_sharkMoveAndEat_self hl hg hka
        obtain ⟨n2, h2⟩ := lookupAgent_reproduce_self h1
        have h3 : lookupAgent (updateAgent (reproduce (sharkMoveAndEat st uid) uid) uid
            (fun c => { c with energy := c.energy - 1 })) uid =
            some { a with
                   pos := p1,
                   energy := (a.energy + (if (fishCells st a.pos).isEmpty then 0
                     else st.sharkEnergyFromFish)) - 1,
                   fert := n2 } := by
          rw [lookupAgent_updateAgent_energy, h2]
          simp [hau]
        rw [h3]
        split
        rotate_left
        · rename_i heq
          cases heq
        rename_i a3 heq
        cases heq
        dsimp only
        rw [if_pos (by omega)]
        exact removed_state_clean _ _
  · intro st uid a q fid hl hk hg hfs hq hhead
    have hau : a.uid = uid := (lookupAgent_mem hl).2
    have hne : a.uid ≠ fid := head_uid_ne_of_kinds hg (lookupAgent_mem hl).1 hk hhead
    unfold sharkMoveAndEat
    rw [hl]
    dsimp only
    rw [if_neg (by rw [List.isEmpty_eq_true]; exact hfs)]
    rw [← hq]
    split
    rotate_left
    · rename_i heq
      rw [cellAt_ridx] at heq
      rw [hhead] at heq
      cases heq
    rename_i fid2 snd2 heq
    rw [cellAt_ridx, hhead] at heq
    simp only [Option.some.injEq, Prod.mk.injEq] at heq
    obtain ⟨h5, h6⟩ := heq
    subst h5
    subst h6
    constructor
    · rw [rosterIds_updateAgent_energy]
      unfold moveAgent
      rw [rosterIds_updateAgent_pos]
      exact roster_not_mem_scheduleRemove _ _
    · have hclean : ∀ c ∈ (scheduleRemove (removeFromGrid
          { st with ridx := st.ridx + 1 } fid) fid).cells, ∀ o ∈ c, o.1 ≠ fid :=
        cells_clean_removeFromGrid _ _
      intro c hc o ho
      have hfinal : (updateAgent (moveAgent (scheduleRemove (removeFromGrid
          { st with ridx := st.ridx + 1 } fid) fid) uid a.kind q) uid
          (fun b => { b with energy := b.energy + st.sharkEnergyFromFish })).cells =
          (moveAgent (scheduleRemove (removeFromGrid
            { st with ridx := st.ridx + 1 } fid) fid) uid a.kind q).cells := rfl
      rw [hfinal] at hc
      unfold moveAgent updateAgent placeOnGrid setCellAt at hc
      dsimp only at hc
      rcases List.mem_or_eq_of_mem_set hc with hc1 | rfl
      · unfold removeFromGrid at hc1
        dsimp only at hc1
        rw [List.mem_map] at hc1
        obtain ⟨c0, hc0, rfl⟩ := hc1
        exact hclean c0 hc0 o (List.mem_of_mem_filter ho)
      · rcases List.mem_append.mp ho with ho1 | ho2
        · have hmem2 : cellAt (removeFromGrid (scheduleRemove (removeFromGrid
              { st with ridx := st.ridx + 1 } fid) fid) uid) q ≠ [] := by
            intro he
            rw [he] at ho1
            cases ho1
          have hc2 := cellAt_mem_cells hmem2
          have hclean2 : ∀ c ∈ (removeFromGrid (scheduleRemove (removeFromGrid
              { st with ridx := st.ridx + 1 } fid) fid) uid).cells,
              ∀ o ∈ c, o.1 ≠ fid := by
            intro c hc o ho
            unfold removeFromGrid at hc
            dsimp only at hc
            rw [List.mem_map] at hc
            obtain ⟨c0, hc0, rfl⟩ := hc
            exact hclean c0 hc0 o (List.mem_of_mem_filter ho)
          exact hclean2 _ hc2 o ho1
        · rw [List.mem_singleton.mp ho2]
          dsimp only
          rw [hau] at hne
          exact hne
  · intro st uid hdead n
    exact ⟨dead_tickIter hdead n, (dead_tick (dead_tickIter hdead n)).2⟩

theorem claim_C4_witness :
    Dead (tickIter 2 exSt4) 1 ∧ 1 ∉ (tick (tickIter 2 exSt4)).2 :=
  claim_C4_death_finality.2.2 exSt4 1 (by simp only [Dead, rosterIds]; decide) 2

/-! ## Claim C8: seeding -/

theorem cellIdx_lt {w h x y : Nat} (hx : x < w) (hy : y < h) : x * h + y < w * h := by
  calc x * h + y < x * h + h := Nat.add_lt_add_left hy _
    _ = (x + 1) * h := by ring
    _ ≤ w * h := Nat.mul_le_mul_right _ hx

theorem findEmptyCell_some {st : WState} {fuel : Nat} {p : Nat × Nat} {st1 : WState}
    (hw : 0 < st.width) (hh : 0 < st.height)
    (h : findEmptyCell st fuel = some (p, st1)) :
    isCellEmpty st p = true ∧ p.1 < st.width ∧ p.2 < st.height ∧
    st1.cells = st.cells ∧ st1.agents = st.agents ∧ st1.currentId = st.currentId ∧
    st1.width = st.width ∧ st1.height = st.height ∧ st1.rng = st.rng ∧
    st1.fishInitialEnergy = st.fishInitialEnergy ∧
    st1.sharkInitialEnergy = st.sharkInitialEnergy ∧
    st1.fishFertilityThreshold = st.fishFertilityThreshold ∧
    st1.sharkFertilityThreshold = st.sharkFertilityThreshold ∧
    st1.sharkEnergyFromFish = st.sharkEnergyFromFish ∧
    ∃ k, st1.ridx = st.ridx + 2 * k := by
  induction fuel generalizing st with
  | zero => cases h
  | succ fuel ih =>
      rw [findEmptyCell] at h
      split at h
      · rename_i hemp
        cases h
        refine ⟨hemp, Nat.mod_lt _ hw, Nat.mod_lt _ hh, rfl, rfl, rfl, rfl, rfl, rfl,
          rfl, rfl, rfl, rfl, rfl, 1, rfl⟩
      · have hw2 : 0 < ({ st with ridx := st.ridx + 2 } : WState).width := hw
        have hh2 : 0 < ({ st with ridx := st.ridx + 2 } : WState).height := hh
        obtain ⟨h1, h2, h3, h4, h5, h6, h7, h8, h9, h10, h11, h12, h13, h14, k, hk⟩ :=
          ih hw2 hh2 h
        refine ⟨h1, h2, h3, h4, h5, h6, h7, h8, h9, h10, h11, h12, h13, h14, k + 1, ?_⟩
        rw [hk]
        dsimp only
        omega

theorem findEmptyCell_mono {st : WState} {fuel fuel2 : Nat} {r : (Nat × Nat) × WState}
    (h : findEmptyCell st fuel = some r) (hle : fuel ≤ fuel2) :
    findEmptyCell st fuel2 = some r := by
  induction fuel generalizing st fuel2 with
  | zero => cases h
  | succ fuel ih =>
      rw [findEmptyCell] at h
      obtain ⟨fuel3, rfl⟩ : ∃ m, fuel2 = m + 1 := by
        cases fuel2
        · omega
        · exact ⟨_, rfl⟩
      rw [findEmptyCell]
      split at h
      · rename_i hemp
        rw [if_pos hemp]
        exact h
      · rename_i hemp
        rw [if_neg hemp]
        exact ih h (by omega)

theorem isCellEmpty_ridx {st : WState} {n : Nat} {p : Nat × Nat} :
    isCellEmpty { st with ridx := n } p = isCellEmpty st p := rfl

theorem findEmptyCell_succeeds_aux (d : Nat) :
    ∀ (st : WState) (i x0 y0 : Nat), 0 < st.width → 0 < st.height →
      st.ridx = 2 * i →
      st.rng (2 * (i + d)) % st.width = x0 →
      st.rng (2 * (i + d) + 1) % st.height = y0 →
      isCellEmpty st (x0, y0) = true →
      ∃ fuel r, findEmptyCell st fuel = some r := by
  induction d with
  | zero =>
      intro st i x0 y0 hw hh hrx hsx hsy hemp
      refine ⟨1, ((x0, y0), { st with ridx := st.ridx + 2 }), ?_⟩
      rw [findEmptyCell]
      rw [hrx]
      have hx : st.rng (2 * i) % st.width = x0 := by
        rw [show 2 * i = 2 * (i + 0) from by ring]
        exact hsx
      have hy : st.rng (2 * i + 1) % st.height = y0 := by
        rw [show 2 * i = 2 * (i + 0) from by ring]
        exact hsy
      rw [hx, hy]
      rw [if_pos (by rw [isCellEmpty_ridx]; exact hemp)]
  | succ d ih =>
      intro st i x0 y0 hw hh hrx hsx hsy hemp
      by_cases hfirst : isCellEmpty st
          (st.rng st.ridx % st.width, st.rng (st.ridx + 1) % st.height) = true
      · refine ⟨1, ((st.rng st.ridx % st.width, st.rng (st.ridx + 1) % st.height),
          { st with ridx := st.ridx + 2 }), ?_⟩
        rw [findEmptyCell]
        rw [if_pos (by rw [isCellEmpty_ridx]; exact hfirst)]
      · have hrx2 : ({ st with ridx := st.ridx + 2 } : WState).ridx = 2 * (i + 1) := by
          dsimp only
          omega
        have hsx2 : ({ st with ridx := st.ridx + 2 } : WState).rng
            (2 * ((i + 1) + d)) % ({ st with ridx := st.ridx + 2 } : WState).width = x0 := by
          dsimp only
          rw [show 2 * ((i + 1) + d) = 2 * (i + (d + 1)) from by ring]
          exact hsx
        have hsy2 : ({ st with ridx := st.ridx + 2 } : WState).rng
            (2 * ((i + 1) + d) + 1) % ({ st with ridx := st.ridx + 2 } : WState).height
            = y0 := by
          dsimp only
          rw [show 2 * ((i + 1) + d) = 2 * (i + (d + 1)) from by ring]
          exact hsy
        obtain ⟨fuel, r, hf⟩ := ih { st with ridx := st.ridx + 2 } (i + 1) x0 y0 hw hh
          hrx2 hsx2 hsy2 (by rw [isCellEmpty_ridx]; exact hemp)
        refine ⟨fuel + 1, r, ?_⟩
        rw [findEmptyCell]
        rw [if_neg (by rw [isCellEmpty_ridx]; exact hfirst)]
        exact hf

theorem findEmptyCell_succeeds {st : WState} (hw : 0 < st.width) (hh : 0 < st.height)
    (hcov : Covers st.width st.height st.rng) (hev : 2 ∣ st.ridx)
    (hempty : ∃ x y, x < st.width ∧ y < st.height ∧ isCellEmpty st (x, y) = true) :
    ∃ fuel r, findEmptyCell st fuel = some r := by
  obtain ⟨x0, y0, hx0, hy0, he0⟩ := hempty
  obtain ⟨i, hi⟩ := hev
  obtain ⟨j, hij, hjx, hjy⟩ := hcov i x0 y0 hx0 hy0
  refine findEmptyCell_succeeds_aux (j - i) st i x0 y0 hw hh hi ?_ ?_ he0
  · rw [show i + (j - i) = j from by omega]
    exact hjx
  · rw [show i + (j - i) = j from by omega]
    exact hjy

theorem countP_replicate_nil (n : Nat) :
    (List.replicate n ([] : List (Nat × AgentKind))).countP (fun c => !c.isEmpty) = 0 := by
  induction n with
  | zero => rfl
  | succ n ih => simp [List.replicate_succ, List.countP_cons, ih]

theorem seedInv_initialState (c : Config) : SeedInv (initialState c) := by
  refine ⟨?_, ?_, ?_, ?_, ?_, ?_⟩
  · simp [initialState]
  · intro a ha
    cases ha
  · exact countP_replicate_nil _
  · intro a ha
    cases ha
  · simp [initialState, rosterIds]
  · exact ⟨0, rfl⟩

theorem cellAt_eq_getElem {st : WState} {p : Nat × Nat}
    (h : cellIdx st p < st.cells.length) : cellAt st p = st.cells[cellIdx st p] := by
  unfold cellAt
  rw [List.getD_eq_getElem _ _ h]

theorem seedAgent_some {st st2 : WState} {k : AgentKind} {fuel : Nat}
    (hw : 0 < st.width) (hh : 0 < st.height) (hinv : SeedInv st)
    (h : seedAgent st k fuel = some st2) :
    SeedInv st2 ∧ st2.agents.length = st.agents.length + 1 ∧
    st2.width = st.width ∧ st2.height = st.height ∧ st2.rng = st.rng := by
  obtain ⟨hlen, hsingle, hcount, hbound, hnodup, heven⟩ := hinv
  unfold seedAgent at h
  split at h
  · cases h
  · rename_i p st1 hf
    cases h
    obtain ⟨hemp, hpx, hpy, hcells, hagents, hcid, hwd, hht, hrng, hc1, hc2, hc3, hc4,
      hc5, kk, hkk⟩ := findEmptyCell_some hw hh hf
    have hci : cellIdx st1 p = cellIdx st p := by
      unfold cellIdx
      rw [hht]
    have hca : cellAt st1 p = cellAt st p := by
      unfold cellAt
      rw [hcells, hci]
    have hcellp : cellAt st p = [] := by
      unfold isCellEmpty at hemp
      rw [List.isEmpty_eq_true] at hemp
      exact hemp
    have hidx : cellIdx st p < st.cells.length := by
      rw [hlen]
      exact cellIdx_lt hpx hpy
    -- the new state, component by component
    dsimp only [scheduleAdd, placeOnGrid, setCellAt, SeedInv, rosterIds, cellAt, cellIdx]
    unfold cellAt cellIdx at hcellp hca
    unfold isCellEmpty cellAt cellIdx at hemp
    refine ⟨⟨?_, ?_, ?_, ?_, ?_, ?_⟩, ?_, ?_, ?_, ?_⟩
    · rw [List.length_set, hcells, hlen, hwd, hht]
    · intro a ha
      have ha2 : a ∈ st1.agents ++
          [{ uid := st1.currentId + 1, kind := k, energy := initE
              { st1 with currentId := st1.currentId + 1 } k, fert := 0, pos := p }] := ha
      rw [hht, hcells]
      rcases List.mem_append.mp ha2 with hold | hnew
      · rw [hagents] at hold
        obtain ⟨hax, hay, hacell⟩ := hsingle a hold
        unfold cellAt cellIdx at hacell
        have hane : a.pos.1 * st.height + a.pos.2 ≠ p.1 * st.height + p.2 := by
          intro he
          rw [he, hcellp] at hacell
          cases hacell
        refine ⟨by rw [hwd]; exact hax, hay, ?_⟩
        rw [List.getD_eq_getElem?_getD, List.getElem?_set_ne (fun he => hane he.symm),
          ← List.getD_eq_getElem?_getD]
        exact hacell
      · rw [List.mem_singleton] at hnew
        subst hnew
        refine ⟨by rw [hwd]; exact hpx, hpy, ?_⟩
        have hidx2 : p.1 * st.height + p.2 < st.cells.length := by
          rw [hlen]
          exact cellIdx_lt hpx hpy
        rw [List.getD_eq_getElem?_getD, List.getElem?_set_self hidx2]
        dsimp only [Option.getD]
        rw [hcellp]
        rfl
    · rw [hht, hcells]
      have hidx2 : p.1 * st.height + p.2 < st.cells.length := by
        rw [hlen]
        exact cellIdx_lt hpx hpy
      rw [List.countP_set _ _ _ _ hidx2]
      have hcem : st.cells[p.1 * st.height + p.2] = [] := by
        rw [← List.getD_eq_getElem st.cells [] hidx2]
        exact hcellp
      rw [hcem, hcellp]
      rw [List.length_append, hagents, hcount]
      simp
    · intro a ha
      have ha2 : a ∈ st1.agents ++
          [{ uid := st1.currentId + 1, kind := k, energy := initE
              { st1 with currentId := st1.currentId + 1 } k, fert := 0, pos := p }] := ha
      show a.uid ≤ st1.currentId + 1
      rcases List.mem_append.mp ha2 with hold | hnew
      · rw [hagents] at hold
        have := hbound a hold
        rw [hcid]
        omega
      · rw [List.mem_singleton] at hnew
        subst hnew
        dsimp only
        omega
    · rw [List.map_append, hagents]
      have hfresh : st1.currentId + 1 ∉ rosterIds st := by
        intro hmem
        unfold rosterIds at hmem
        rw [List.mem_map] at hmem
        obtain ⟨b, hb, hbe⟩ := hmem
        have := hbound b hb
        rw [hcid] at hbe
        omega
      simp only [List.map_cons, List.map_nil]
      rw [List.nodup_append]
      refine ⟨hnodup, List.nodup_singleton _, ?_⟩
      intro b hb hb2
      rw [List.mem_singleton] at hb2
      subst hb2
      exact hfresh hb
    · show 2 ∣ st1.ridx
      rw [hkk]
      omega
    · rw [List.length_append, hagents]
      rfl
    · exact hwd
    · exact hht
    · exact hrng

theorem seedAgent_mono {st st2 : WState} {k : AgentKind} {fuel fuel2 : Nat}
    (h : seedAgent st k fuel = some st2) (hle : fuel ≤ fuel2) :
    seedAgent st k fuel2 = some st2 := by
  unfold seedAgent at h ⊢
  split at h
  · cases h
  · rename_i p st1 hf
    rw [findEmptyCell_mono hf hle]
    exact h

theorem countP_lt_length_exists {l : List (List (Nat × AgentKind))}
    (h : l.countP (fun c => !c.isEmpty) < l.length) :
    ∃ i, ∃ hi : i < l.length, l[i].isEmpty = true := by
  induction l with
  | nil => cases h
  | cons a l ih =>
      rw [List.countP_cons] at h
      by_cases ha : a.isEmpty = true
      · exact ⟨0, Nat.succ_pos _, ha⟩
      · have hb : (fun c : List (Nat × AgentKind) => !c.isEmpty) a = true := by
          simp only [Bool.not_eq_true] at ha
          simp [ha]
        rw [if_pos hb] at h
        have h2 : l.countP (fun c => !c.isEmpty) < l.length := by
          rw [List.length_cons] at h
          omega
        obtain ⟨i, hi, hp⟩ := ih h2
        refine ⟨i + 1, ?_, ?_⟩
        · rw [List.length_cons]
          omega
        · rw [List.getElem_cons_succ]
          exact hp

theorem exists_empty_cell {st : WState} (hh : 0 < st.height)
    (hlen : st.cells.length = st.width * st.height)
    (hcnt : st.cells.countP (fun c => !c.isEmpty) < st.cells.length) :
    ∃ x y, x < st.width ∧ y < st.height ∧ isCellEmpty st (x, y) = true := by
  obtain ⟨i, hi, hp⟩ := countP_lt_length_exists hcnt
  have h2 : i < st.width * st.height := by
    rw [← hlen]
    exact hi
  refine ⟨i / st.height, i % st.height, ?_, Nat.mod_lt _ hh, ?_⟩
  · exact (Nat.div_lt_iff_lt_mul hh).mpr h2
  · unfold isCellEmpty cellAt cellIdx
    have hidx : i / st.height * st.height + i % st.height = i := by
      rw [Nat.mul_comm (i / st.height) st.height]
      exact Nat.div_add_mod i st.height
    dsimp only
    rw [hidx, List.getD_eq_getElem st.cells [] hi]
    exact hp

theorem seedAgent_exists {st : WState} (k : AgentKind)
    (hw : 0 < st.width) (hh : 0 < st.height) (hinv : SeedInv st)
    (hcov : Covers st.width st.height st.rng)
    (hroom : st.agents.length < st.width * st.height) :
    ∃ fuel st2, seedAgent st k fuel = some st2 := by
  obtain ⟨hlen, hsingle, hcount, hbound, hnodup, heven⟩ := hinv
  have hcnt : st.cells.countP (fun c => !c.isEmpty) < st.cells.length := by
    rw [hcount, hlen]
    exact hroom
  obtain ⟨x, y, hx, hy, he⟩ := exists_empty_cell hh hlen hcnt
  obtain ⟨fuel, ⟨p, st1⟩, hf⟩ := findEmptyCell_succeeds hw hh hcov heven ⟨x, y, hx, hy, he⟩
  have hres : seedAgent st k fuel = some (scheduleAdd
      (placeOnGrid { st1 with currentId := st1.currentId + 1 } (st1.currentId + 1) k p)
      { uid := st1.currentId + 1, kind := k,
        energy := initE { st1 with currentId := st1.currentId + 1 } k, fert := 0, pos := p }) := by
    unfold seedAgent
    rw [hf]
  exact ⟨fuel, _, hres⟩

theorem seedKind_some {k : AgentKind} {cnt fuel : Nat} :
    ∀ {st st2 : WState}, 0 < st.width → 0 < st.height → SeedInv st →
    seedKind k cnt fuel st = some st2 →
    SeedInv st2 ∧ st2.agents.length = st.agents.length + cnt ∧
    st2.width = st.width ∧ st2.height = st.height ∧ st2.rng = st.rng := by
  induction cnt with
  | zero =>
      intro st st2 hw hh hinv h
      rw [seedKind] at h
      cases h
      exact ⟨hinv, rfl, rfl, rfl, rfl⟩
  | succ cnt ih =>
      intro st st2 hw hh hinv h
      rw [seedKind] at h
      split at h
      · cases h
      · rename_i st1 h1
        obtain ⟨hinv1, hlen1, hw1, hh1, hr1⟩ := seedAgent_some hw hh hinv h1
        obtain ⟨hinv2, hlen2, hw2, hh2, hr2⟩ := ih (by rw [hw1]; exact hw)
          (by rw [hh1]; exact hh) hinv1 h
        refine ⟨hinv2, ?_, by rw [hw2, hw1], by rw [hh2, hh1], by rw [hr2, hr1]⟩
        rw [hlen2, hlen1]
        omega

theorem seedKind_mono {k : AgentKind} {cnt : Nat} :
    ∀ {st st2 : WState} {fuel fuel2 : Nat}, seedKind k cnt fuel st = some st2 →
    fuel ≤ fuel2 → seedKind k cnt fuel2 st = some st2 := by
  induction cnt with
  | zero =>
      intro st st2 fuel fuel2 h hle
      rw [seedKind] at h ⊢
      exact h
  | succ cnt ih =>
      intro st st2 fuel fuel2 h hle
      rw [seedKind] at h ⊢
      split at h
      · cases h
      · rename_i st1 h1
        rw [seedAgent_mono h1 hle]
        exact ih h hle

theorem seedKind_terminates (k : AgentKind) (cnt : Nat) :
    ∀ {st : WState}, 0 < st.width → 0 < st.height → SeedInv st →
    Covers st.width st.height st.rng →
    st.agents.length + cnt ≤ st.width * st.height →
    ∃ fuel st2, seedKind k cnt fuel st = some st2 := by
  induction cnt with
  | zero =>
      intro st hw hh hinv hcov hcap
      exact ⟨0, st, rfl⟩
  | succ cnt ih =>
      intro st hw hh hinv hcov hcap
      obtain ⟨f1, st1, h1⟩ := seedAgent_exists k hw hh hinv hcov (by omega)
      obtain ⟨hinv1, hlen1, hw1, hh1, hr1⟩ := seedAgent_some hw hh hinv h1
      obtain ⟨f2, st2, h2⟩ := ih (by rw [hw1]; exact hw) (by rw [hh1]; exact hh) hinv1
        (by rw [hw1, hh1, hr1]; exact hcov) (by rw [hlen1, hw1, hh1]; omega)
      refine ⟨max f1 f2, st2, ?_⟩
      rw [seedKind]
      rw [seedAgent_mono h1 (Nat.le_max_left _ _)]
      exact seedKind_mono h2 (Nat.le_max_right _ _)

theorem seedModel_some {c : Config} {fuel : Nat} {st : WState}
    (hw : 0 < c.width) (hh : 0 < c.height)
    (h : seedModel c fuel = some st) :
    SeedInv st ∧ st.agents.length = c.nFish + c.nSharks ∧
    st.width = c.width ∧ st.height = c.height := by
  unfold seedModel at h
  split at h
  · cases h
  · rename_i st1 h1
    have hw0 : 0 < (initialState c).width := hw
    have hh0 : 0 < (initialState c).height := hh
    obtain ⟨hinv1, hlen1, hw1, hh1, hr1⟩ :=
      seedKind_some hw0 hh0 (seedInv_initialState c) h1
    obtain ⟨hinv2, hlen2, hw2, hh2, hr2⟩ := seedKind_some (by rw [hw1]; exact hw0)
      (by rw [hh1]; exact hh0) hinv1 h
    have hwc : (initialState c).width = c.width := rfl
    have hhc : (initialState c).height = c.height := rfl
    have hl0 : (initialState c).agents.length = 0 := rfl
    refine ⟨hinv2, ?_, by rw [hw2, hw1, hwc], by rw [hh2, hh1, hhc]⟩
    rw [hlen2, hlen1, hl0]
    omega

theorem seedModel_terminates {c : Config} (hw : 0 < c.width) (hh : 0 < c.height)
    (hcov : Covers c.width c.height c.seedStream)
    (hcap : c.nFish + c.nSharks ≤ c.width * c.height) :
    ∃ fuel st, seedModel c fuel = some st := by
  have hw0 : 0 < (initialState c).width := hw
  have hh0 : 0 < (initialState c).height := hh
  have hcov0 : Covers (initialState c).width (initialState c).height (initialState c).rng :=
    hcov
  have hwc : (initialState c).width = c.width := rfl
  have hhc : (initialState c).height = c.height := rfl
  have hl0 : (initialState c).agents.length = 0 := rfl
  obtain ⟨f1, st1, h1⟩ := seedKind_terminates AgentKind.fish c.nFish hw0 hh0
    (seedInv_initialState c) hcov0 (by rw [hl0, hwc, hhc]; omega)
  obtain ⟨hinv1, hlen1, hw1, hh1, hr1⟩ :=
    seedKind_some hw0 hh0 (seedInv_initialState c) h1
  obtain ⟨f2, st2, h2⟩ := seedKind_terminates AgentKind.shark c.nSharks
    (by rw [hw1]; exact hw0) (by rw [hh1]; exact hh0) hinv1
    (by rw [hw1, hh1, hr1]; exact hcov0)
    (by rw [hlen1, hl0, hw1, hh1, hwc, hhc]; omega)
  refine ⟨max f1 f2, st2, ?_⟩
  unfold seedModel
  rw [seedKind_mono h1 (Nat.le_max_left _ _)]
  exact seedKind_mono h2 (Nat.le_max_right _ _)

theorem seedModel_none {c : Config} (hw : 0 < c.width) (hh : 0 < c.height)
    (hover : c.width * c.height < c.nFish + c.nSharks) (fuel : Nat) :
    seedModel c fuel = none := by
  cases hsm : seedModel c fuel with
  | none => rfl
  | some st =>
      exfalso
      obtain ⟨⟨hlen, hsingle, hcount, hbound, hnodup, heven⟩, hlen2, hw2, hh2⟩ :=
        seedModel_some hw hh hsm
      have hle : st.cells.countP (fun c => !c.isEmpty) ≤ st.cells.length :=
        List.countP_le_length _
      rw [hcount, hlen, hw2, hh2, hlen2] at hle
      omega

theorem seeded_positions_distinct {st : WState}
    (hsingle : ∀ a ∈ st.agents, a.pos.1 < st.width ∧ a.pos.2 < st.height ∧
      cellAt st a.pos = [(a.uid, a.kind)])
    (hnodup : (rosterIds st).Nodup) :
    List.Pairwise (fun a b : Agent => a.pos ≠ b.pos) st.agents := by
  have hp : List.Pairwise (fun a b : Agent => a.uid ≠ b.uid) st.agents := by
    unfold rosterIds at hnodup
    exact List.pairwise_map.mp hnodup
  refine List.Pairwise.imp_of_mem ?_ hp
  intro a b ha hb hne hpe
  obtain ⟨_, _, hca⟩ := hsingle a ha
  obtain ⟨_, _, hcb⟩ := hsingle b hb
  rw [hpe, hcb] at hca
  simp only [List.cons.injEq, Prod.mk.injEq, and_true] at hca
  exact hne hca.1.symm

/-- **C8** (seeding termination and placement): on a positive grid,
(i) whenever seeding completes it has placed exactly
`nFish + nSharks` agents, each alone in an in-range cell (so each cell
chosen was empty at placement time) and all at pairwise distinct cells;
(ii) if the population exceeds the grid capacity `width * height`,
seeding never terminates (every fuel bound yields `none`);
(iii) if the random stream is covering and the population fits the
capacity, seeding terminates. -/
theorem claim_C8_seeding (c : Config) (hw : 0 < c.width) (hh : 0 < c.height) :
    (∀ fuel st, seedModel c fuel = some st →
      (∀ a ∈ st.agents, a.pos.1 < c.width ∧ a.pos.2 < c.height ∧
        cellAt st a.pos = [(a.uid, a.kind)]) ∧
      List.Pairwise (fun a b : Agent => a.pos ≠ b.pos) st.agents ∧
      st.agents.length = c.nFish + c.nSharks) ∧
    (c.width * c.height < c.nFish + c.nSharks → ∀ fuel, seedModel c fuel = none) ∧
    (Covers c.width c.height c.seedStream → c.nFish + c.nSharks ≤ c.width * c.height →
      ∃ fuel st, seedModel c fuel = some st) := by
  refine ⟨?_, fun hover fuel => seedModel_none hw hh hover fuel,
    fun hcov hcap => seedModel_terminates hw hh hcov hcap⟩
  intro fuel st hsm
  obtain ⟨⟨hlen, hsingle, hcount, hbound, hnodup, heven⟩, hlen2, hw2, hh2⟩ :=
    seedModel_some hw hh hsm
  refine ⟨?_, seeded_positions_distinct hsingle hnodup, hlen2⟩
  intro a ha
  obtain ⟨h1, h2, h3⟩ := hsingle a ha
  exact ⟨by rw [← hw2]; exact h1, by rw [← hh2]; exact h2, h3⟩

/-- Witness for C8: the over-capacity configuration `cBig` (population 5
on a 4-cell grid) makes seeding return `none` at the concrete fuel 7. -/
theorem claim_C8_witness : seedModel cBig 7 = none :=
  (claim_C8_seeding cBig (by decide) (by decide)).2.1 (by decide) 7

end WaTor
